import Mathlib

/-
  Verification of the md-formatter-extension core text pipeline.

  The JavaScript sources under src/ are shallowly embedded below:
  * src/lib/markdown-parser.js   (MarkdownParser)
  * src/unnamed/part_000         (HTMLOptimizer)
  * src/lib/document-exporter.js (DocumentExporter and DiagramHandler)

  Strings are modelled as `List Char`; every JavaScript regular-expression
  replace is hand-translated into an explicit scanner with the same
  leftmost-match and backtracking behaviour.  Scanners that are not
  structurally recursive take an explicit fuel argument; callers pass
  `length + 1`, which is always sufficient because every step consumes at
  least one character.  JavaScript number arithmetic (only used inside two
  scoring heuristics) is modelled with exact integer arithmetic, noted at
  the definitions concerned.
-/

set_option maxRecDepth 20000

namespace MdFmt

/-- JS whitespace: the `\s` character class and `String.prototype.trim`. -/
def isJsSpace (c : Char) : Bool :=
  c = ' ' || c = '\t' || c = '\n' || c = '\r' ||
  c = Char.ofNat 0x0b || c = Char.ofNat 0x0c || c = Char.ofNat 0xa0 ||
  c = Char.ofNat 0x1680 || (0x2000 ≤ c.toNat && c.toNat ≤ 0x200a) ||
  c = Char.ofNat 0x2028 || c = Char.ofNat 0x2029 || c = Char.ofNat 0x202f ||
  c = Char.ofNat 0x205f || c = Char.ofNat 0x3000 || c = Char.ofNat 0xfeff

def isDigitC (c : Char) : Bool := '0' ≤ c && c ≤ '9'

def isAsciiAlpha (c : Char) : Bool := ('a' ≤ c && c ≤ 'z') || ('A' ≤ c && c ≤ 'Z')

/-- JS `\w` word characters. -/
def isWordC (c : Char) : Bool := isAsciiAlpha c || isDigitC c || c = '_'

/-- ASCII model of `String.prototype.toLowerCase`. -/
def lowerC (c : Char) : Char :=
  if 'A' ≤ c && c ≤ 'Z' then Char.ofNat (c.toNat + 32) else c

def apos : Char := Char.ofNat 39

def btick : Char := Char.ofNat 96

/-- Length of the longest prefix whose characters satisfy `p`. -/
def countWhile (p : Char → Bool) : List Char → Nat
  | [] => 0
  | c :: r => if p c then countWhile p r + 1 else 0

/-- Drop the longest suffix whose characters satisfy `p`. -/
def dropLastWhile (p : Char → Bool) : List Char → List Char
  | [] => []
  | c :: r =>
    match dropLastWhile p r with
    | [] => if p c then [] else [c]
    | x :: t => c :: x :: t

/-- JS `String.prototype.trim`. -/
def jsTrim (l : List Char) : List Char :=
  dropLastWhile isJsSpace (l.dropWhile isJsSpace)

/-- JS `String.prototype.split` with a one-character separator. -/
def splitChar (sep : Char) : List Char → List (List Char)
  | [] => [[]]
  | c :: r =>
    let rest := splitChar sep r
    if c = sep then [] :: rest
    else
      match rest with
      | [] => [[c]]
      | h :: t => (c :: h) :: t

def splitNl : List Char → List (List Char) := splitChar '\n'

/-- JS `Array.prototype.join` with an arbitrary separator. -/
def joinSep (sep : List Char) : List (List Char) → List Char
  | [] => []
  | [l] => l
  | l :: l2 :: r => l ++ sep ++ joinSep sep (l2 :: r)

def joinNl : List (List Char) → List Char := joinSep ['\n']

/-- Does `pat` occur as a contiguous substring? -/
def containsSub (pat : List Char) : List Char → Bool
  | [] => pat.isEmpty
  | c :: r => pat.isPrefixOf (c :: r) || containsSub pat r

/-- Number of positions at which `pat` occurs (pat assumed nonempty). -/
def countSub (pat : List Char) : List Char → Nat
  | [] => 0
  | c :: r => (if pat.isPrefixOf (c :: r) then 1 else 0) + countSub pat r

/-- Case-insensitive prefix test (ASCII folding, for regexes with the i flag). -/
def caselessPfx : List Char → List Char → Bool
  | [], _ => true
  | _ :: _, [] => false
  | p :: ps, c :: cs => (lowerC p = lowerC c) && caselessPfx ps cs

def caselessContains (pat : List Char) : List Char → Bool
  | [] => pat.isEmpty
  | c :: r => caselessPfx pat (c :: r) || caselessContains pat r

/-- Global replace of a literal pattern, left to right, non-overlapping. -/
def replaceAllGo (pat rep : List Char) : Nat → List Char → List Char
  | _, [] => []
  | 0, l => l
  | fuel + 1, c :: r =>
    if pat ≠ [] && pat.isPrefixOf (c :: r) then
      rep ++ replaceAllGo pat rep fuel ((c :: r).drop pat.length)
    else c :: replaceAllGo pat rep fuel r

def replaceAll (pat rep l : List Char) : List Char :=
  replaceAllGo pat rep (l.length + 1) l

/-- Case-insensitive global replace of a literal pattern. -/
def replaceAllCiGo (pat rep : List Char) : Nat → List Char → List Char
  | _, [] => []
  | 0, l => l
  | fuel + 1, c :: r =>
    if pat ≠ [] && caselessPfx pat (c :: r) then
      rep ++ replaceAllCiGo pat rep fuel ((c :: r).drop pat.length)
    else c :: replaceAllCiGo pat rep fuel r

def replaceAllCi (pat rep l : List Char) : List Char :=
  replaceAllCiGo pat rep (l.length + 1) l

/-- Does `pat` occur starting at index `i`? -/
def occursAt (pat l : List Char) (i : Nat) : Bool :=
  pat.isPrefixOf (l.drop i)

/-- Strip one leading and one trailing hyphen: JS `replace(/^-|-$/g, '')`. -/
def stripOneDashEach (l : List Char) : List Char :=
  let l1 := match l with
    | '-' :: r => r
    | _ => l
  match l1.getLast? with
  | some '-' => l1.dropLast
  | _ => l1

/-- Digits to a natural number (used by the font-size scanner). -/
def digitsToNat (l : List Char) : Nat :=
  l.foldl (fun a c => a * 10 + (c.toNat - '0'.toNat)) 0

/-- Run-collapsing global replace, e.g. `/\s+/g → '-'`. -/
def collapseRunsGo (p : Char → Bool) (r : Char) : Nat → List Char → List Char
  | 0, l => l
  | _ + 1, [] => []
  | fuel + 1, c :: t =>
    if p c then r :: collapseRunsGo p r fuel (t.dropWhile p)
    else c :: collapseRunsGo p r fuel t

def collapseRuns (p : Char → Bool) (r : Char) (l : List Char) : List Char :=
  collapseRunsGo p r (l.length + 1) l

end MdFmt

namespace MarkdownParser

open MdFmt

/-- Resolved options record built by the `MarkdownParser` constructor. -/
structure ParserOptions where
  breaks : Bool
  linkify : Bool
  typographer : Bool
  includeStyles : Bool
  highlightCode : Bool

/-- Options object passed to the constructor; `none` models an omitted key. -/
structure ParserOptionsInput where
  breaks : Option Bool
  linkify : Option Bool
  typographer : Option Bool
  includeStyles : Option Bool
  highlightCode : Option Bool

/-- The constructor's defaulting of omitted option keys (`??` plus spread). -/
def mkOptions (o : ParserOptionsInput) : ParserOptions :=
  ⟨o.breaks.getD false, o.linkify.getD true, o.typographer.getD true,
   o.includeStyles.getD true, o.highlightCode.getD false⟩

def defaultOptions : ParserOptions := mkOptions ⟨none, none, none, none, none⟩

/-- The constructor's style table (`this.styles`), keyed by tag name. -/
def stylesMap : String → Option String
  | "h1" => some "font-size:24px;font-weight:bold;margin:20px 0 10px 0;line-height:1.3;"
  | "h2" => some "font-size:20px;font-weight:bold;margin:18px 0 9px 0;line-height:1.3;"
  | "h3" => some "font-size:16px;font-weight:bold;margin:16px 0 8px 0;line-height:1.3;"
  | "h4" => some "font-size:14px;font-weight:bold;margin:14px 0 7px 0;line-height:1.3;"
  | "h5" => some "font-size:12px;font-weight:bold;margin:12px 0 6px 0;line-height:1.3;"
  | "h6" => some "font-size:11px;font-weight:bold;margin:10px 0 5px 0;line-height:1.3;"
  | "p" => some "margin:0 0 12px 0;line-height:1.6;"
  | "ul" => some "margin:0 0 12px 0;padding-left:24px;"
  | "ol" => some "margin:0 0 12px 0;padding-left:24px;"
  | "li" => some "margin:0 0 4px 0;line-height:1.5;"
  | "blockquote" => some "margin:0 0 12px 0;padding:10px 20px;border-left:4px solid #e0e0e0;background:#f9f9f9;color:#555;"
  | "code" => some "font-family:\"SF Mono\",\"Fira Code\",\"Consolas\",monospace;font-size:0.9em;background:#f4f4f4;padding:2px 6px;border-radius:3px;"
  | "pre" => some "font-family:\"SF Mono\",\"Fira Code\",\"Consolas\",monospace;font-size:0.9em;background:#f4f4f4;padding:16px;border-radius:6px;overflow-x:auto;margin:0 0 12px 0;line-height:1.4;"
  | "table" => some "border-collapse:collapse;margin:0 0 12px 0;width:100%;"
  | "th" => some "border:1px solid #ddd;padding:10px 12px;background:#f5f5f5;font-weight:bold;text-align:left;"
  | "td" => some "border:1px solid #ddd;padding:10px 12px;"
  | "hr" => some "border:none;border-top:2px solid #e0e0e0;margin:24px 0;"
  | "a" => some "color:#1a73e8;text-decoration:underline;"
  | "img" => some "max-width:100%;height:auto;margin:8px 0;"
  | "taskUnchecked" => some "margin-right:8px;"
  | "taskChecked" => some "margin-right:8px;"
  | _ => none

/-- `escapeHtml`: replace the five HTML metacharacters. -/
def escapeHtmlC (c : Char) : List Char :=
  if c = '&' then "&amp;".data
  else if c = '<' then "&lt;".data
  else if c = '>' then "&gt;".data
  else if c = '"' then "&quot;".data
  else if c = apos then "&#39;".data
  else [c]

def escapeHtml (l : List Char) : List Char := (l.map escapeHtmlC).flatten

def aStyleAttr (o : ParserOptions) : List Char :=
  if o.includeStyles then " style=\"color:#1a73e8;text-decoration:underline;\"".data else []

def imgStyleAttr (o : ParserOptions) : List Char :=
  if o.includeStyles then " style=\"max-width:100%;height:auto;margin:8px 0;\"".data else []

/-- Replacement for image syntax: `<img src="${url}" alt="${alt}"${style}>`. -/
def imgTag (o : ParserOptions) (alt url : List Char) : List Char :=
  "<img src=\"".data ++ url ++ "\" alt=\"".data ++ alt ++ imgStyleAttr o ++ ">".data

/-- Pass for `/!\[([^\]]*)\]\(([^)]+)\)/g`. -/
def imgReplace (o : ParserOptions) : Nat → List Char → List Char
  | 0, l => l
  | _ + 1, [] => []
  | fuel + 1, c :: r =>
    if c = '!' then
      match r with
      | '[' :: r2 =>
        let alt := r2.takeWhile (· ≠ ']')
        match r2.drop alt.length with
        | ']' :: '(' :: r4 =>
          let url := r4.takeWhile (· ≠ ')')
          if url ≠ [] then
            match r4.drop url.length with
            | ')' :: r6 => imgTag o alt url ++ imgReplace o fuel r6
            | _ => c :: imgReplace o fuel r
          else c :: imgReplace o fuel r
        | _ => c :: imgReplace o fuel r
      | _ => c :: imgReplace o fuel r
    else c :: imgReplace o fuel r

/-- Replacement for link syntax: `<a href="${url}"${style}>${linkText}</a>`. -/
def aTag (o : ParserOptions) (txt url : List Char) : List Char :=
  "<a href=\"".data ++ url ++ "\"".data ++ aStyleAttr o ++ ">".data ++ txt ++ "</a>".data

/-- Pass for `/\[([^\]]+)\]\(([^)]+)\)/g`. -/
def linkReplace (o : ParserOptions) : Nat → List Char → List Char
  | 0, l => l
  | _ + 1, [] => []
  | fuel + 1, c :: r =>
    if c = '[' then
      let txt := r.takeWhile (· ≠ ']')
      if txt ≠ [] then
        match r.drop txt.length with
        | ']' :: '(' :: r3 =>
          let url := r3.takeWhile (· ≠ ')')
          if url ≠ [] then
            match r3.drop url.length with
            | ')' :: r5 => aTag o txt url ++ linkReplace o fuel r5
            | _ => c :: linkReplace o fuel r
          else c :: linkReplace o fuel r
        | _ => c :: linkReplace o fuel r
      else c :: linkReplace o fuel r
    else c :: linkReplace o fuel r

/-- Trailing characters excluded from an autolinked URL by the final class. -/
def urlForbiddenEnd (c : Char) : Bool :=
  c = '.' || c = ',' || c = ';' || c = ':' || c = '!' || c = '?' || c = '"' ||
  c = apos || c = ')' || c = ']'

/-- Replacement for an autolinked URL: `<a href="${url}"${style}>${url}</a>`. -/
def aTagUrl (o : ParserOptions) (url : List Char) : List Char :=
  "<a href=\"".data ++ url ++ "\"".data ++ aStyleAttr o ++ ">".data ++ url ++ "</a>".data

/-- Pass for `/(?<!["=>])(https?:\/\/[^\s<]+[^\s<.,;:!?"')\]])/g`; the
`prev` argument carries the character before the scan position for the
negative lookbehind. -/
def linkifyGo (o : ParserOptions) : Nat → Option Char → List Char → List Char
  | 0, _, l => l
  | _ + 1, _, [] => []
  | fuel + 1, prev, c :: r =>
    let protoLen : Nat :=
      if prev = some '"' || prev = some '=' || prev = some '>' then 0
      else if "https://".data.isPrefixOf (c :: r) then 8
      else if "http://".data.isPrefixOf (c :: r) then 7
      else 0
    if protoLen = 0 then c :: linkifyGo o fuel (some c) r
    else
      let after := (c :: r).drop protoLen
      let run := after.takeWhile (fun x => !(isJsSpace x) && x ≠ '<')
      let body := dropLastWhile urlForbiddenEnd run
      if body.length < 2 then c :: linkifyGo o fuel (some c) r
      else
        let url := (c :: r).take protoLen ++ body
        aTagUrl o url ++ linkifyGo o fuel body.getLast? ((c :: r).drop (protoLen + body.length))

/-- Scanner for regexes shaped `open([^x]+)close` with global replacement
`pre$1post` (highlight, superscript, inline code, smart quotes). -/
def runPair (openL : List Char) (excl : Char) (closeL pre post : List Char) :
    Nat → List Char → List Char
  | 0, l => l
  | _ + 1, [] => []
  | fuel + 1, c :: r =>
    if openL.isPrefixOf (c :: r) then
      let after := (c :: r).drop openL.length
      let cap := after.takeWhile (· ≠ excl)
      let rest := after.drop cap.length
      if cap ≠ [] && closeL.isPrefixOf rest then
        pre ++ cap ++ post ++ runPair openL excl closeL pre post fuel (rest.drop closeL.length)
      else c :: runPair openL excl closeL pre post fuel r
    else c :: runPair openL excl closeL pre post fuel r

def supFnStyleAttr (o : ParserOptions) : List Char :=
  if o.includeStyles then " style=\"color:#1a73e8;font-size:0.8em;vertical-align:super;\"".data
  else []

/-- Replacement for a footnote reference:
`<sup${style}><a href="#fn-${id}" id="fnref-${id}">[${id}]</a></sup>`. -/
def supFnTag (o : ParserOptions) (id : List Char) : List Char :=
  "<sup".data ++ supFnStyleAttr o ++ "><a href=\"#fn-".data ++ id ++
  "\" id=\"fnref-".data ++ id ++ "\">[".data ++ id ++ "]</a></sup>".data

/-- Pass for `/\[\^(\w+)\]/g`. -/
def fnRefReplace (o : ParserOptions) : Nat → List Char → List Char
  | 0, l => l
  | _ + 1, [] => []
  | fuel + 1, c :: r =>
    if c = '[' then
      match r with
      | '^' :: r2 =>
        let w := r2.takeWhile isWordC
        if w ≠ [] then
          match r2.drop w.length with
          | ']' :: r4 => supFnTag o w ++ fnRefReplace o fuel r4
          | _ => c :: fnRefReplace o fuel r
        else c :: fnRefReplace o fuel r
      | _ => c :: fnRefReplace o fuel r
    else c :: fnRefReplace o fuel r

/-- Pass for `/(?<!~)~([^~]+)~(?!~)/g` (subscript). -/
def subRepl : Nat → Option Char → List Char → List Char
  | 0, _, l => l
  | _ + 1, _, [] => []
  | fuel + 1, prev, c :: r =>
    if c = '~' && prev ≠ some '~' then
      let cap := r.takeWhile (· ≠ '~')
      if cap ≠ [] then
        match r.drop cap.length with
        | '~' :: r2 =>
          if r2.head? = some '~' then c :: subRepl fuel (some c) r
          else "<sub>".data ++ cap ++ "</sub>".data ++ subRepl fuel (some '~') r2
        | _ => c :: subRepl fuel (some c) r
      else c :: subRepl fuel (some c) r
    else c :: subRepl fuel (some c) r

/-- Smallest capture length `j ≥ 1` such that `delim` is a prefix after `j`
non-newline characters (the lazy `(.+?)` of the emphasis regexes). -/
def findLazyClose (delim : List Char) : Nat → List Char → Option Nat
  | 0, _ => none
  | fuel + 1, l =>
    match l with
    | [] => none
    | c :: r =>
      if c = '\n' then none
      else if delim.isPrefixOf r then some 1
      else
        match findLazyClose delim fuel r with
        | some j => some (j + 1)
        | none => none

/-- Scanner for regexes shaped `delim(.+?)delim` with replacement
`pre$1post` (bold-italic, bold, italic, strikethrough). -/
def lazyPair (delim pre post : List Char) : Nat → List Char → List Char
  | 0, l => l
  | _ + 1, [] => []
  | fuel + 1, c :: r =>
    if delim.isPrefixOf (c :: r) then
      let after := (c :: r).drop delim.length
      match findLazyClose delim (after.length + 1) after with
      | some j =>
        pre ++ after.take j ++ post ++
          lazyPair delim pre post fuel (after.drop (j + delim.length))
      | none => c :: lazyPair delim pre post fuel r
    else c :: lazyPair delim pre post fuel r

def markPre (o : ParserOptions) : List Char :=
  "<mark".data ++
  (if o.includeStyles then " style=\"background:#fff3cd;padding:2px 4px;\"".data else []) ++
  ">".data

def codePre (o : ParserOptions) : List Char :=
  "<code".data ++
  (if o.includeStyles then
    (" style=\"" ++ ((stylesMap "code").getD "") ++ "\"").data else []) ++
  ">".data

def emDash : List Char := [Char.ofNat 0x2014]
def enDash : List Char := [Char.ofNat 0x2013]
def hellipC : List Char := [Char.ofNat 0x2026]
def ldquo : Char := Char.ofNat 0x201c
def rdquo : Char := Char.ofNat 0x201d
def lsquo : Char := Char.ofNat 0x2018
def rsquo : Char := Char.ofNat 0x2019

/-- `parseInline`: the full ordered chain of inline replacement passes. -/
def parseInline (o : ParserOptions) (l : List Char) : List Char :=
  if l = [] then []
  else
    let t1 := escapeHtml l
    let t2 := imgReplace o (t1.length + 1) t1
    let t3 := linkReplace o (t2.length + 1) t2
    let t4 := if o.linkify then linkifyGo o (t3.length + 1) none t3 else t3
    let t5 := runPair "==".data '=' "==".data (markPre o) "</mark>".data (t4.length + 1) t4
    let t6 := fnRefReplace o (t5.length + 1) t5
    let t7 := runPair ['^'] '^' ['^'] "<sup>".data "</sup>".data (t6.length + 1) t6
    let t8 := subRepl (t7.length + 1) none t7
    let t9 := lazyPair "***".data "<strong><em>".data "</em></strong>".data (t8.length + 1) t8
    let t10 := lazyPair "___".data "<strong><em>".data "</em></strong>".data (t9.length + 1) t9
    let t11 := lazyPair "**".data "<strong>".data "</strong>".data (t10.length + 1) t10
    let t12 := lazyPair "__".data "<strong>".data "</strong>".data (t11.length + 1) t11
    let t13 := lazyPair ['*'] "<em>".data "</em>".data (t12.length + 1) t12
    let t14 := lazyPair ['_'] "<em>".data "</em>".data (t13.length + 1) t13
    let t15 := lazyPair "~~".data "<del>".data "</del>".data (t14.length + 1) t14
    let t16 := runPair [btick] btick [btick] (codePre o) "</code>".data (t15.length + 1) t15
    if o.typographer then
      let u1 := replaceAll "---".data emDash t16
      let u2 := replaceAll "--".data enDash u1
      let u3 := replaceAll "...".data hellipC u2
      let u4 := runPair ['"'] '"' ['"'] [ldquo] [rdquo] (u3.length + 1) u3
      runPair [apos] apos [apos] [lsquo] [rsquo] (u4.length + 1) u4
    else t16

def spanClose : List Char := "</span>".data

/-- Content length of a string literal per `(["'`])(?:(?!\1)[^\\]|\\.)*\1`. -/
def strSpanLen (q : Char) : Nat → List Char → Option Nat
  | 0, _ => none
  | fuel + 1, l =>
    match l with
    | [] => none
    | c :: r =>
      if c = q then some 0
      else if c = '\\' then
        match r with
        | c2 :: r2 => if c2 = '\n' then none else (strSpanLen q fuel r2).map (· + 2)
        | [] => none
      else (strSpanLen q fuel r).map (· + 1)

/-- Highlight string literals (`highlightSyntax`, first pass). -/
def hlStrings : Nat → List Char → List Char
  | 0, l => l
  | _ + 1, [] => []
  | fuel + 1, c :: r =>
    if c = '"' || c = apos || c = btick then
      match strSpanLen c (r.length + 1) r with
      | some n =>
        "<span style=\"color:#22863a;\">".data ++ (c :: r.take n) ++ [c] ++ spanClose ++
          hlStrings fuel (r.drop (n + 1))
      | none => c :: hlStrings fuel r
    else c :: hlStrings fuel r

/-- Index of the first occurrence of `pat`. -/
def findSubIdx (pat : List Char) : Nat → List Char → Option Nat
  | 0, _ => none
  | fuel + 1, l =>
    match l with
    | [] => if pat.isEmpty then some 0 else none
    | c :: r =>
      if pat.isPrefixOf (c :: r) then some 0
      else (findSubIdx pat fuel r).map (· + 1)

def commentSpan : List Char := "<span style=\"color:#6a737d;\">".data

/-- Highlight comments (`//.*$`, lazy block comments and `#.*$`, flag m). -/
def hlComments : Nat → List Char → List Char
  | 0, l => l
  | _ + 1, [] => []
  | fuel + 1, c :: r =>
    if "//".data.isPrefixOf (c :: r) then
      let m := (c :: r).takeWhile (· ≠ '\n')
      commentSpan ++ m ++ spanClose ++ hlComments fuel ((c :: r).drop m.length)
    else if "/*".data.isPrefixOf (c :: r) then
      match findSubIdx "*/".data (r.length + 1) (r.drop 1) with
      | some k =>
        let m := (c :: r).take (2 + k + 2)
        commentSpan ++ m ++ spanClose ++ hlComments fuel ((c :: r).drop (2 + k + 2))
      | none => c :: hlComments fuel r
    else if c = '#' then
      let m := (c :: r).takeWhile (· ≠ '\n')
      commentSpan ++ m ++ spanClose ++ hlComments fuel ((c :: r).drop m.length)
    else c :: hlComments fuel r

/-- Word-boundary test between a match-final character and the next one. -/
def bEnd (last : Char) (next : Option Char) : Bool :=
  isWordC last != (match next with | some c => isWordC c | none => false)

def emitNum (d : List Char) : List Char :=
  "<span style=\"color:#005cc5;\">".data ++ d ++ spanClose

/-- Highlight numbers, `\b(\d+\.?\d*)\b` with its backtracking behaviour. -/
def hlNumbers : Nat → Option Char → List Char → List Char
  | 0, _, l => l
  | _ + 1, _, [] => []
  | fuel + 1, prev, c :: r =>
    let prevWord := match prev with | some p => isWordC p | none => false
    if isDigitC c && !prevWord then
      let d1 := (c :: r).takeWhile isDigitC
      let a1 := (c :: r).drop d1.length
      match a1 with
      | '.' :: r2 =>
        let d2 := r2.takeWhile isDigitC
        let a2 := r2.drop d2.length
        let lastC := if d2.isEmpty then '.' else d2.getLastD '.'
        if bEnd lastC a2.head? then
          emitNum (d1 ++ '.' :: d2) ++ hlNumbers fuel (some lastC) a2
        else if !d2.isEmpty then
          emitNum (d1 ++ ['.']) ++ hlNumbers fuel (some '.') r2
        else
          emitNum d1 ++ hlNumbers fuel (some (d1.getLastD c)) a1
      | _ =>
        if bEnd (d1.getLastD c) a1.head? then
          emitNum d1 ++ hlNumbers fuel (some (d1.getLastD c)) a1
        else c :: hlNumbers fuel (some c) r
    else c :: hlNumbers fuel (some c) r

/-- First keyword alternative (in list order) matching with both `\b` tests. -/
def kwTry (kws : List (List Char)) (prevW : Bool) (l : List Char) : Option (List Char) :=
  kws.findSome? (fun kw =>
    if kw.isPrefixOf l then
      let headW := match kw.head? with | some c => isWordC c | none => false
      let lastW := match kw.getLast? with | some c => isWordC c | none => false
      let nextW := match (l.drop kw.length).head? with | some c => isWordC c | none => false
      if (headW != prevW) && (lastW != nextW) then some kw else none
    else none)

/-- Highlight keywords, `\b(kw1|kw2|...)\b` (case-sensitive, flag g only). -/
def hlKeywords (kws : List (List Char)) : Nat → Option Char → List Char → List Char
  | 0, _, l => l
  | _ + 1, _, [] => []
  | fuel + 1, prev, c :: r =>
    let prevW := match prev with | some p => isWordC p | none => false
    match kwTry kws prevW (c :: r) with
    | some kw =>
      "<span style=\"color:#d73a49;\">".data ++ kw ++ spanClose ++
        hlKeywords kws fuel kw.getLast? ((c :: r).drop kw.length)
    | none => c :: hlKeywords kws fuel (some c) r

def jsKeywordList : List String := ["const", "let", "var", "function", "return", "if", "else", "for", "while", "class", "import", "export", "default", "from", "async", "await", "try", "catch", "throw", "new", "this", "null", "undefined", "true", "false"]

def pyKeywordList : List String := ["def", "class", "if", "elif", "else", "for", "while", "return", "import", "from", "as", "try", "except", "raise", "with", "lambda", "None", "True", "False", "and", "or", "not", "in", "is"]

def cssKeywordList : List String := ["@media", "@import", "@keyframes", "@font-face", "!important"]

def htmlKeywordList : List String := ["DOCTYPE", "html", "head", "body", "div", "span", "p", "a", "img", "script", "style", "link", "meta"]

def keywordsFor (lang : List Char) : List (List Char) :=
  if lang = "javascript".data then jsKeywordList.map (·.data)
  else if lang = "python".data then pyKeywordList.map (·.data)
  else if lang = "css".data then cssKeywordList.map (·.data)
  else if lang = "html".data then htmlKeywordList.map (·.data)
  else []

/-- Embeds `highlightSyntax` (strings, comments, numbers, keywords passes). -/
def highlightSyntaxFn (code lang : List Char) : List Char :=
  let kws := keywordsFor (lang.map lowerC)
  let c1 := hlStrings (code.length + 1) code
  let c2 := hlComments (c1.length + 1) c1
  let c3 := hlNumbers (c2.length + 1) none c2
  if !kws.isEmpty then hlKeywords kws (c3.length + 1) none c3 else c3

/-- Match `\s{minWs,}(.+)$` on a newline-free line, including the regex
backtracking that lets the capture start inside the whitespace run. -/
def tailCapture (minWs : Nat) (l : List Char) : Option (List Char) :=
  let w := countWhile isJsSpace l
  let rest := l.drop w
  if w < minWs then none
  else if !rest.isEmpty then some rest
  else if w ≥ minWs + 1 && w ≥ 1 then some [l.getLastD ' ']
  else none

/-- Match `^\[\^(\w+)\]:\s*(.+)$` (a footnote definition line). -/
def fnDefCapture (l : List Char) : Option (List Char × List Char) :=
  match l with
  | '[' :: '^' :: r =>
    let w := r.takeWhile isWordC
    if !w.isEmpty then
      match r.drop w.length with
      | ']' :: ':' :: r3 =>
        match tailCapture 0 r3 with
        | some cap => some (w, cap)
        | none => none
      | _ => none
    else none
  | _ => none

/-- Match `^(#{1,6})\s+(.+)$` (a heading line). -/
def headingCapture (l : List Char) : Option (Nat × List Char) :=
  let k := countWhile (· = '#') l
  if 1 ≤ k && k ≤ 6 then
    match tailCapture 1 (l.drop k) with
    | some cap => some (k, cap)
    | none => none
  else none

/-- `slugify`: heading id generation. -/
def slugify (l : List Char) : List Char :=
  let a := l.map lowerC
  let b := a.filter (fun c => ('a' ≤ c && c ≤ 'z') || isDigitC c || isJsSpace c || c = '-')
  stripOneDashEach (collapseRuns (· = '-') '-' (collapseRuns isJsSpace '-' b))

def assocSet (fn : List (List Char × List Char)) (k v : List Char) :
    List (List Char × List Char) :=
  if fn.any (fun p => p.1 = k) then fn.map (fun p => if p.1 = k then (k, v) else p)
  else fn ++ [(k, v)]

/-- The footnote table built by scanning lines for definition matches. -/
def fnCollect (lines : List (List Char)) : List (List Char × List Char) :=
  lines.foldl (fun fn l =>
    match fnDefCapture l with
    | some kv => assocSet fn kv.1 kv.2
    | none => fn) []

/-- `extractFootnotes`: collect definitions and drop their lines. -/
def extractFootnotes (l : List Char) : List (List Char × List Char) × List Char :=
  let lines := splitNl l
  (fnCollect lines, joinNl (lines.filter (fun li => (fnDefCapture li).isNone)))

/-- Table separator regex `^\|?[-:\s]+\|[-:\s|]+\|?$` (body after the
optional leading pipe). -/
def sepBody (m : List Char) : Bool :=
  let r1 := m.takeWhile (fun c => c = '-' || c = ':' || isJsSpace c)
  let m2 := m.drop r1.length
  !r1.isEmpty &&
    (match m2 with
     | '|' :: m3 =>
       let r2 := m3.takeWhile (fun c => c = '-' || c = ':' || isJsSpace c || c = '|')
       !r2.isEmpty && (m3.drop r2.length).isEmpty
     | _ => false)

def sepLineMatch (l : List Char) : Bool :=
  match l with
  | '|' :: r => sepBody r
  | _ => sepBody l

/-- `isTableStart`. -/
def isTableStart (lines : List (List Char)) (i : Nat) : Bool :=
  if i + 1 ≥ lines.length then false
  else (lines.getD i []).contains '|' && sepLineMatch (lines.getD (i + 1) [])

/-- `replace(/^\||\|$/g, '')`: one leading and one trailing pipe. -/
def stripOuterPipes (l : List Char) : List Char :=
  let l1 := match l with
    | '|' :: r => r
    | _ => l
  match l1.getLast? with
  | some '|' => l1.dropLast
  | _ => l1

/-- `parseTableRow`. -/
def parseTableRow (l : List Char) : List (List Char) :=
  (splitChar '|' (stripOuterPipes l)).map jsTrim

def alignOf (cell : List Char) : List Char :=
  let c := jsTrim cell
  if c.head? = some ':' && c.getLast? = some ':' then "center".data
  else if c.getLast? = some ':' then "right".data
  else "left".data

/-- `parseTableAlignments`. -/
def parseTableAlignments (l : List Char) : List (List Char) :=
  (splitChar '|' (stripOuterPipes l)).map alignOf

/-- One header cell: `<th style="...">...</th>` with the alignment default. -/
def renderTh (o : ParserOptions) (aligns : List (List Char)) (i : Nat) (cell : List Char) :
    List Char :=
  let al := aligns.getD i "left".data
  let st := (if o.includeStyles then ((stylesMap "th").getD "").data else []) ++
            "text-align:".data ++ al ++ [';']
  "<th style=\"".data ++ st ++ "\">".data ++ parseInline o cell ++ "</th>".data

/-- One body cell: `<td style="...">...</td>`; a cell index with no
separator alignment entry falls back to left (`alignments[i] || 'left'`). -/
def renderTd (o : ParserOptions) (aligns : List (List Char)) (i : Nat) (cell : List Char) :
    List Char :=
  let al := aligns.getD i "left".data
  let st := (if o.includeStyles then ((stylesMap "td").getD "").data else []) ++
            "text-align:".data ++ al ++ [';']
  "<td style=\"".data ++ st ++ "\">".data ++ parseInline o cell ++ "</td>".data

/-- `parseTable`; the returned index is the JS `endIndex + 1`. -/
def parseTable (o : ParserOptions) (lines : List (List Char)) (i : Nat) : List Char × Nat :=
  let headers := parseTableRow (lines.getD i [])
  let aligns := parseTableAlignments (lines.getD (i + 1) [])
  let rlines := (lines.drop (i + 2)).takeWhile (fun l => l.contains '|')
  let rows := (rlines.map parseTableRow).filter (fun cs => cs.length > 0)
  let openT :=
    if o.includeStyles then ("<table style=\"" ++ ((stylesMap "table").getD "") ++ "\">").data
    else "<table>".data
  openT ++ "<thead><tr>".data ++
      (headers.mapIdx (fun j c => renderTh o aligns j c)).flatten ++ "</tr></thead>".data ++
      "<tbody>".data ++
      (rows.map (fun row =>
        "<tr>".data ++ (row.mapIdx (fun j c => renderTd o aligns j c)).flatten ++
        "</tr>".data)).flatten ++
      "</tbody></table>".data
  |> (·, i + 2 + rlines.length)

/-- `wrapTag` (non-self-closing form). -/
def wrapTag (o : ParserOptions) (tag : String) (content : List Char) : List Char :=
  let st := match stylesMap tag with
    | some s => if o.includeStyles then (" style=\"" ++ s ++ "\"").data else []
    | none => []
  ("<" ++ tag).data ++ st ++ ">".data ++ content ++ ("</" ++ tag ++ ">").data

/-- `wrapTag` with `selfClosing = true`. -/
def wrapTagSelf (o : ParserOptions) (tag : String) : List Char :=
  let st := match stylesMap tag with
    | some s => if o.includeStyles then (" style=\"" ++ s ++ "\"").data else []
    | none => []
  ("<" ++ tag).data ++ st ++ ">".data

/-- `parseCodeBlock`; consumes to the closing ```` ``` ```` line or to the
end of the document; returned index is the JS `endIndex + 1`. -/
def parseCodeBlock (o : ParserOptions) (lines : List (List Char)) (i : Nat) : List Char × Nat :=
  let language := ((lines.getD i []).drop 3).takeWhile isWordC
  let body := (lines.drop (i + 1)).takeWhile (fun l => l ≠ "```".data)
  let code := escapeHtml (joinNl body)
  let langAttr :=
    if !language.isEmpty then " data-language=\"".data ++ language ++ "\"".data else []
  let inner := if o.highlightCode && !language.isEmpty then highlightSyntaxFn code language else code
  (wrapTag o "pre" ("<code".data ++ langAttr ++ ">".data ++ inner ++ "</code>".data),
   i + 2 + body.length)

/-- Match `^(\s*)[-*+]\s+(.*)$`: returns (indent, content). -/
def ulItemCapture (l : List Char) : Option (Nat × List Char) :=
  let w := countWhile isJsSpace l
  match l.drop w with
  | c :: r =>
    if (c = '-' || c = '*' || c = '+') &&
        (match r with | c2 :: _ => isJsSpace c2 | [] => false) then
      some (w, r.drop (countWhile isJsSpace r))
    else none
  | [] => none

/-- Match `^(\s*)\d+\.\s+(.*)$`: returns (indent, content). -/
def olItemCapture (l : List Char) : Option (Nat × List Char) :=
  let w := countWhile isJsSpace l
  let r := l.drop w
  let d := r.takeWhile isDigitC
  if d.isEmpty then none
  else
    match r.drop d.length with
    | '.' :: r2 =>
      match r2 with
      | c2 :: _ =>
        if isJsSpace c2 then some (w, r2.drop (countWhile isJsSpace r2)) else none
      | [] => none
    | _ => none

/-- Match `^(\s*)[-*+]\s+\[[ xX]\]\s+(.*)$`: returns (indent, content). -/
def taskItemCapture (l : List Char) : Option (Nat × List Char) :=
  let w := countWhile isJsSpace l
  match l.drop w with
  | c :: r =>
    if c = '-' || c = '*' || c = '+' then
      let w2 := countWhile isJsSpace r
      if w2 ≥ 1 then
        match r.drop w2 with
        | '[' :: m :: ']' :: r3 =>
          if m = ' ' || m = 'x' || m = 'X' then
            let w3 := countWhile isJsSpace r3
            if w3 ≥ 1 then some (w, r3.drop w3) else none
          else none
        | _ => none
      else none
    else none
  | [] => none

def checkboxChecked : List Char :=
  "<input type=\"checkbox\" checked disabled style=\"margin-right:8px;\">".data

def checkboxUnchecked : List Char :=
  "<input type=\"checkbox\" disabled style=\"margin-right:8px;\">".data

/-- Item-collection loop of `parseList`. -/
def parseListGo (o : ParserOptions) (isUl : Bool) (baseIndent : Nat)
    (lines : List (List Char)) :
    Nat → Nat → List (List Char × Nat) → List (List Char × Nat) × Nat
  | 0, i, items => (items, i)
  | fuel + 1, i, items =>
    if i ≥ lines.length then (items, i)
    else
      let line := lines.getD i []
      match (if isUl then ulItemCapture line else olItemCapture line) with
      | some ic =>
        if ic.1 < baseIndent then (items, i)
        else parseListGo o isUl baseIndent lines fuel (i + 1)
          (items ++ [(parseInline o ic.2, ic.1)])
      | none =>
        let taskStep :=
          match taskItemCapture line with
          | some ic =>
            if isUl && ic.1 ≥ baseIndent then
              let checked := containsSub "[x]".data line || containsSub "[X]".data line
              let box := if checked then checkboxChecked else checkboxUnchecked
              some (box ++ parseInline o ic.2, ic.1)
            else none
          | none => none
        match taskStep with
        | some it => parseListGo o isUl baseIndent lines fuel (i + 1) (items ++ [it])
        | none =>
          if (jsTrim line).isEmpty || countWhile isJsSpace line ≥ 2 then
            parseListGo o isUl baseIndent lines fuel (i + 1) items
          else (items, i)

/-- `buildListHtml` (flat; the collected indents are ignored, as in source). -/
def buildListHtml (o : ParserOptions) (isUl : Bool) (items : List (List Char × Nat)) :
    List Char :=
  if items.isEmpty then []
  else
    let tag := if isUl then "ul" else "ol"
    let st := (stylesMap tag).getD ""
    let openT :=
      if o.includeStyles && st ≠ "" then ("<" ++ tag ++ " style=\"" ++ st ++ "\">").data
      else ("<" ++ tag ++ ">").data
    let liStyle :=
      if o.includeStyles then (" style=\"" ++ ((stylesMap "li").getD "") ++ "\"").data else []
    openT ++
      (items.map (fun it => "<li".data ++ liStyle ++ ">".data ++ it.1 ++ "</li>".data)).flatten ++
      ("</" ++ tag ++ ">").data

/-- `parseList`; returned index is the JS `endIndex + 1`. -/
def parseList (o : ParserOptions) (isUl : Bool) (lines : List (List Char)) (i : Nat) :
    List Char × Nat :=
  let base := countWhile isJsSpace (lines.getD i [])
  let r := parseListGo o isUl base lines (lines.length + 1) i []
  (buildListHtml o isUl r.1, r.2)

/-- Match `^:\s+` (a definition line). -/
def ddStart (l : List Char) : Bool :=
  match l with
  | ':' :: r => (match r with | c :: _ => isJsSpace c | [] => false)
  | _ => false

/-- Match `^:\s+.+` (a nonempty definition line). -/
def ddFullMatch (l : List Char) : Bool :=
  match l with
  | ':' :: r => (tailCapture 1 r).isSome
  | _ => false

/-- `replace(/^:\s+/, '')`. -/
def stripDd (l : List Char) : List Char :=
  match l with
  | ':' :: r => if ddStart l then r.drop (countWhile isJsSpace r) else l
  | _ => l

def startsWithHash (l : List Char) : Bool :=
  match l with
  | '#' :: _ => true
  | _ => false

/-- `isDefinitionList`. -/
def isDefinitionList (lines : List (List Char)) (i : Nat) : Bool :=
  if i + 1 ≥ lines.length then false
  else
    let cur := jsTrim (lines.getD i [])
    !cur.isEmpty && !startsWithHash cur && ddFullMatch (lines.getD (i + 1) [])

/-- Term/definition collection loop of `parseDefinitionList`. -/
def parseDefListGo (o : ParserOptions) (lines : List (List Char)) :
    Nat → Nat → List (List Char × List (List Char)) →
    List (List Char × List (List Char)) × Nat
  | 0, i, items => (items, i)
  | fuel + 1, i, items =>
    if i ≥ lines.length then (items, i)
    else
      let termLine := jsTrim (lines.getD i [])
      if termLine.isEmpty || startsWithHash termLine then (items, i)
      else if decide (i + 1 ≥ lines.length) || !ddStart (lines.getD (i + 1) []) then (items, i)
      else
        let term := parseInline o termLine
        let dls := (lines.drop (i + 1)).takeWhile ddStart
        let defs := dls.map (fun l => parseInline o (stripDd l))
        let j := i + 1 + dls.length
        let blanks := (lines.drop j).takeWhile (fun l => (jsTrim l).isEmpty)
        let j2 := j + blanks.length
        let items2 := items ++ [(term, defs)]
        if decide (j2 ≥ lines.length) || decide (j2 + 1 ≥ lines.length) ||
            !ddStart (lines.getD (j2 + 1) []) then (items2, j2)
        else parseDefListGo o lines fuel j2 items2

/-- `parseDefinitionList`; returned index is the JS `endIndex + 1`. -/
def parseDefList (o : ParserOptions) (lines : List (List Char)) (i : Nat) :
    List Char × Nat :=
  let r := parseDefListGo o lines (lines.length + 1) i []
  let st := if o.includeStyles then " style=\"margin:0 0 16px 0;\"".data else []
  let dtS := if o.includeStyles then " style=\"font-weight:bold;margin:8px 0 4px 0;\"".data else []
  let ddS := if o.includeStyles then " style=\"margin:0 0 8px 24px;color:#555;\"".data else []
  ("<dl".data ++ st ++ ">".data ++
    (r.1.map (fun it =>
      "<dt".data ++ dtS ++ ">".data ++ it.1 ++ "</dt>".data ++
      (it.2.map (fun d => "<dd".data ++ ddS ++ ">".data ++ d ++ "</dd>".data)).flatten)).flatten ++
    "</dl>".data, r.2)

/-- Match `^(-{3,}|\*{3,}|_{3,})$` (horizontal rule). -/
def hrMatch (l : List Char) : Bool :=
  match l with
  | [] => false
  | c :: _ => (c = '-' || c = '*' || c = '_') && l.length ≥ 3 && l.all (· = c)

/-- Paragraph stop test `^#{1,6}\s` (note: looser than the heading regex). -/
def headingStopB (l : List Char) : Bool :=
  let k := countWhile (· = '#') l
  1 ≤ k && k ≤ 6 && (match (l.drop k).head? with | some c => isJsSpace c | none => false)

/-- Paragraph stop test `^[-*+]\s`. -/
def bulletStopB (l : List Char) : Bool :=
  match l with
  | c :: d :: _ => (c = '-' || c = '*' || c = '+') && isJsSpace d
  | _ => false

/-- Paragraph stop test `^\d+\.\s`. -/
def olStopB (l : List Char) : Bool :=
  let d := l.takeWhile isDigitC
  !d.isEmpty && (match l.drop d.length with
    | '.' :: c :: _ => isJsSpace c
    | _ => false)

/-- Paragraph stop test `^>\s`. -/
def bqStopB (l : List Char) : Bool :=
  match l with
  | '>' :: c :: _ => isJsSpace c
  | _ => false

/-- The full stop condition of `parseParagraph`. -/
def paraStop (l : List Char) : Bool :=
  headingStopB l || bulletStopB l || olStopB l || bqStopB l ||
  "```".data.isPrefixOf l || hrMatch l || (jsTrim l).isEmpty

/-- `parseParagraph`; returned index is the JS `endIndex + 1` and can equal
`i` when the first line already satisfies a stop condition. -/
def parseParagraph (o : ParserOptions) (lines : List (List Char)) (i : Nat) :
    List Char × Nat :=
  let plines := (lines.drop i).takeWhile (fun l => !paraStop l)
  let joined := joinSep (if o.breaks then "<br>".data else [' ']) plines
  (wrapTag o "p" (parseInline o joined), i + plines.length)

/-- `replace(/^>\s?/, '')` for blockquote lines. -/
def stripBq (l : List Char) : List Char :=
  match l with
  | '>' :: r =>
    match r with
    | c :: r2 => if isJsSpace c then r2 else r
    | [] => []
  | _ => l

def headingStyleAttr (o : ParserOptions) (lvl : Nat) : List Char :=
  if o.includeStyles then
    (" style=\"" ++ ((stylesMap ("h" ++ toString lvl)).getD "") ++ "\"").data
  else []

/-- `renderFootnotes` (the second, effective definition in the class). -/
def renderFootnotes (o : ParserOptions) (fn : List (List Char × List Char)) : List Char :=
  if fn.isEmpty then []
  else
    let st :=
      if o.includeStyles then
        " style=\"margin-top:32px;padding-top:16px;border-top:1px solid #e0e0e0;font-size:0.9em;\"".data
      else []
    "<section class=\"footnotes\"".data ++ st ++ ">".data ++
    "<h4 style=\"margin:0 0 12px 0;font-size:14px;font-weight:bold;\">Footnotes</h4>".data ++
    "<ol style=\"margin:0;padding-left:24px;\">".data ++
    (fn.map (fun p =>
      "<li id=\"fn-".data ++ p.1 ++ "\" style=\"margin-bottom:8px;\">".data ++
      parseInline o p.2 ++
      " <a href=\"#fnref-".data ++ p.1 ++
      "\" style=\"color:#1a73e8;text-decoration:none;\">".data ++
      [Char.ofNat 0x21a9] ++ "</a></li>".data)).flatten ++
    "</ol></section>".data

/-- The block dispatch loop of `parseBlocks`.  JS mutable state is passed
explicitly: `blocks` accumulates rendered blocks, `fn` is `this.footnotes`
(reset and re-collected by every `parseBlocks` invocation, including the
recursive one inside blockquote parsing).  The fuel argument bounds the
number of loop iterations; `none` means the loop has not finished within
the given fuel at any accumulator, which for every fuel value witnesses
divergence of the JS loop.  The `this.headings` side array is a write-only
output of `parse` and is not modelled. -/
def parseBlocksGo (o : ParserOptions) :
    Nat → List (List Char) → Nat → List (List Char) → List (List Char × List Char) →
    Option (List Char × List (List Char × List Char))
  | 0, _, _, _, _ => none
  | fuel + 1, lines, i, blocks, fn =>
    if i ≥ lines.length then some (joinNl blocks, fn)
    else
      let line := lines.getD i []
      if (fnDefCapture line).isSome then
        parseBlocksGo o fuel lines (i + 1) blocks fn
      else if decide (i + 1 < lines.length) && ddFullMatch (lines.getD (i + 1) []) then
        let r := parseDefList o lines i
        parseBlocksGo o fuel lines r.2 (blocks ++ [r.1]) fn
      else if "```".data.isPrefixOf line then
        let r := parseCodeBlock o lines i
        parseBlocksGo o fuel lines r.2 (blocks ++ [r.1]) fn
      else if isTableStart lines i then
        let r := parseTable o lines i
        parseBlocksGo o fuel lines r.2 (blocks ++ [r.1]) fn
      else if isDefinitionList lines i then
        let r := parseDefList o lines i
        parseBlocksGo o fuel lines r.2 (blocks ++ [r.1]) fn
      else
        match headingCapture line with
        | some lc =>
          let lvlS := (toString lc.1).data
          let h := "<h".data ++ lvlS ++ " id=\"".data ++ slugify lc.2 ++ "\"".data ++
                   headingStyleAttr o lc.1 ++ ">".data ++ parseInline o lc.2 ++
                   "</h".data ++ lvlS ++ ">".data
          parseBlocksGo o fuel lines (i + 1) (blocks ++ [h]) fn
        | none =>
          if hrMatch line then
            parseBlocksGo o fuel lines (i + 1) (blocks ++ [wrapTagSelf o "hr"]) fn
          else if line.head? = some '>' then
            let qlines := (lines.drop i).takeWhile (fun l => l.head? = some '>')
            let innerLines := splitNl (joinNl (qlines.map stripBq))
            match parseBlocksGo o fuel innerLines 0 [] (fnCollect innerLines) with
            | some inner =>
              parseBlocksGo o fuel lines (i + qlines.length)
                (blocks ++ [wrapTag o "blockquote" inner.1]) inner.2
            | none => none
          else if (ulItemCapture line).isSome then
            let r := parseList o true lines i
            parseBlocksGo o fuel lines r.2 (blocks ++ [r.1]) fn
          else if (olItemCapture line).isSome then
            let r := parseList o false lines i
            parseBlocksGo o fuel lines r.2 (blocks ++ [r.1]) fn
          else if (taskItemCapture line).isSome then
            let r := parseList o true lines i
            parseBlocksGo o fuel lines r.2 (blocks ++ [r.1]) fn
          else if (jsTrim line).isEmpty then
            parseBlocksGo o fuel lines (i + 1) blocks fn
          else
            let r := parseParagraph o lines i
            parseBlocksGo o fuel lines r.2 (blocks ++ [r.1]) fn

/-- `parseBlocks`: split into lines, reset and re-collect `this.footnotes`,
then run the dispatch loop. -/
def parseBlocksTop (o : ParserOptions) (fuel : Nat) (text : List Char) :
    Option (List Char × List (List Char × List Char)) :=
  let lines := splitNl text
  parseBlocksGo o fuel lines 0 [] (fnCollect lines)

/-- Line-ending normalisation at the top of `parse`. -/
def normalizeNl (l : List Char) : List Char :=
  (replaceAll "\r\n".data "\n".data l).map (fun c => if c = '\r' then '\n' else c)

/-- `parse`: the top-level entry point.  `none` models divergence of the
JS block loop (which cannot finish within any fuel). -/
def parse (fuel : Nat) (o : ParserOptions) (markdown : String) : Option String :=
  if markdown = "" then some ""
  else
    let t1 := (extractFootnotes (normalizeNl markdown.data)).2
    match parseBlocksTop o fuel t1 with
    | some res =>
      let withFn := if !res.2.isEmpty then res.1 ++ renderFootnotes o res.2 else res.1
      some ⟨jsTrim withFn⟩
    | none => none

end MarkdownParser

namespace HTMLOptimizer

open MdFmt MarkdownParser

/-- Pass for `/\s+(class|id)="[^"]*"/gi` (removal). -/
def classIdRemove : Nat → List Char → List Char
  | 0, l => l
  | _ + 1, [] => []
  | fuel + 1, c :: r =>
    if isJsSpace c then
      let after := (c :: r).drop (countWhile isJsSpace (c :: r))
      let wordLen : Nat :=
        if caselessPfx "class".data after then 5
        else if caselessPfx "id".data after then 2
        else 0
      if wordLen = 0 then c :: classIdRemove fuel r
      else
        match after.drop wordLen with
        | '=' :: '"' :: rest2 =>
          let v := rest2.takeWhile (· ≠ '"')
          match rest2.drop v.length with
          | _ :: rest3 => classIdRemove fuel rest3
          | [] => c :: classIdRemove fuel r
        | _ => c :: classIdRemove fuel r
    else c :: classIdRemove fuel r

/-- Pass for `/prop[^;]+;/gi → rep` (the property rewriting/removal regexes;
`prop` includes the colon). -/
def propReplace (prop rep : List Char) : Nat → List Char → List Char
  | 0, l => l
  | _ + 1, [] => []
  | fuel + 1, c :: r =>
    if caselessPfx prop (c :: r) then
      let after := (c :: r).drop prop.length
      let v := after.takeWhile (· ≠ ';')
      if !v.isEmpty then
        match after.drop v.length with
        | ';' :: rest => rep ++ propReplace prop rep fuel rest
        | _ => c :: propReplace prop rep fuel r
      else c :: propReplace prop rep fuel r
    else c :: propReplace prop rep fuel r

/-- JS `Math.round` of `(m/scale)*16` (em/rem), exact integer arithmetic. -/
def fontSizeRound (m scale : Nat) : Nat := (2 * m * 16 + scale) / (2 * scale)

/-- JS `Math.round` of `(m/scale/100)*16` (percent). -/
def fontSizeRoundPct (m scale : Nat) : Nat := (2 * m * 16 + scale * 100) / (2 * scale * 100)

/-- Pass for `/font-size:\s*(\d+(?:\.\d+)?)(em|rem|%)/gi`.  The source
computes with JS doubles; decimal inputs are modelled exactly. -/
def fontSizeReplace : Nat → List Char → List Char
  | 0, l => l
  | _ + 1, [] => []
  | fuel + 1, c :: r =>
    if caselessPfx "font-size:".data (c :: r) then
      let a1 := (c :: r).drop 10
      let a2 := a1.drop (countWhile isJsSpace a1)
      let d1 := a2.takeWhile isDigitC
      if d1.isEmpty then c :: fontSizeReplace fuel r
      else
        let a3 := a2.drop d1.length
        let fracLen : Nat :=
          match a3 with
          | '.' :: r2 =>
            let d2 := r2.takeWhile isDigitC
            if d2.isEmpty then 0 else d2.length + 1
          | _ => 0
        let a4 := a3.drop fracLen
        let mant := digitsToNat (d1 ++ (a3.take fracLen).drop 1)
        let scale := 10 ^ (if fracLen = 0 then 0 else fracLen - 1)
        let unitLen : Nat :=
          if caselessPfx "em".data a4 then 2
          else if caselessPfx "rem".data a4 then 3
          else if caselessPfx "%".data a4 then 1
          else 0
        if unitLen = 0 then c :: fontSizeReplace fuel r
        else
          let px := if unitLen = 1 then fontSizeRoundPct mant scale else fontSizeRound mant scale
          "font-size:".data ++ (toString px).data ++ "px".data ++
            fontSizeReplace fuel (a4.drop unitLen)
    else c :: fontSizeReplace fuel r

/-- Pass for `/border:[^;]*solid[^;]*;/gi → 'border:1px solid #000000;'`. -/
def borderReplace : Nat → List Char → List Char
  | 0, l => l
  | _ + 1, [] => []
  | fuel + 1, c :: r =>
    if caselessPfx "border:".data (c :: r) then
      let after := (c :: r).drop 7
      let v := after.takeWhile (· ≠ ';')
      if caselessContains "solid".data v then
        match after.drop v.length with
        | ';' :: rest => "border:1px solid #000000;".data ++ borderReplace fuel rest
        | _ => c :: borderReplace fuel r
      else c :: borderReplace fuel r
    else c :: borderReplace fuel r

/-- Pass for `/<word([^>]*)>/gi` with replacement built from the capture. -/
def tagAttrReplace (word : List Char) (mk : List Char → List Char) :
    Nat → List Char → List Char
  | 0, l => l
  | _ + 1, [] => []
  | fuel + 1, c :: r =>
    if c = '<' && caselessPfx word r then
      let after := r.drop word.length
      let cap := after.takeWhile (· ≠ '>')
      match after.drop cap.length with
      | '>' :: rest => mk cap ++ tagAttrReplace word mk fuel rest
      | _ => c :: tagAttrReplace word mk fuel r
    else c :: tagAttrReplace word mk fuel r

/-- Pass for `/<p[^>]*>\s*<\/p>/gi` (removal of empty paragraphs). -/
def emptyPRemove : Nat → List Char → List Char
  | 0, l => l
  | _ + 1, [] => []
  | fuel + 1, c :: r =>
    if c = '<' && caselessPfx "p".data r then
      let after := r.drop 1
      let cap := after.takeWhile (· ≠ '>')
      match after.drop cap.length with
      | '>' :: rest =>
        let rest2 := rest.drop (countWhile isJsSpace rest)
        if caselessPfx "</p>".data rest2 then emptyPRemove fuel (rest2.drop 4)
        else c :: emptyPRemove fuel r
      | _ => c :: emptyPRemove fuel r
    else c :: emptyPRemove fuel r

/-- Pass for `new RegExp('<tag([^>]*[^/])>', 'gi') → '<tag$1 />'`,
including the backtracking case in which `[^/]` consumes the first `>`. -/
def selfCloseFix (tag : List Char) : Nat → List Char → List Char
  | 0, l => l
  | _ + 1, [] => []
  | fuel + 1, c :: r =>
    if c = '<' && caselessPfx tag r then
      let after := r.drop tag.length
      let m := after.takeWhile (· ≠ '>')
      match after.drop m.length with
      | '>' :: rest2 =>
        match rest2 with
        | '>' :: rest3 =>
          '<' :: (tag ++ m ++ "> />".data) ++ selfCloseFix tag fuel rest3
        | _ =>
          if !m.isEmpty && decide (m.getLastD '/' ≠ '/') then
            '<' :: (tag ++ m ++ " />".data) ++ selfCloseFix tag fuel rest2
          else c :: selfCloseFix tag fuel r
      | _ => c :: selfCloseFix tag fuel r
    else c :: selfCloseFix tag fuel r

/-- `ensureProperNesting`. -/
def ensureProperNesting (l : List Char) : List Char :=
  ["br", "hr", "img", "input", "meta", "link"].foldl
    (fun s t => selfCloseFix (String.data t) (s.length + 1) s) l

/-- `cleanWhitespace`: pass for `/>\s+</g → '><'`. -/
def cleanWhitespace : Nat → List Char → List Char
  | 0, l => l
  | _ + 1, [] => []
  | fuel + 1, c :: r =>
    if c = '>' then
      let w := r.takeWhile isJsSpace
      if !w.isEmpty && (r.drop w.length).head? = some '<' then
        "><".data ++ cleanWhitespace fuel ((r.drop w.length).drop 1)
      else c :: cleanWhitespace fuel r
    else c :: cleanWhitespace fuel r

/-- `optimizeUniversal`. -/
def optimizeUniversal (html : String) : String :=
  let l0 := html.data
  let l1 := classIdRemove (l0.length + 1) l0
  let l2 := ensureProperNesting l1
  ⟨cleanWhitespace (l2.length + 1) l2⟩

/-- `optimizeForGoogleDocs`. -/
def optimizeForGoogleDocs (html : String) : String :=
  let l0 := html.data
  let l1 := classIdRemove (l0.length + 1) l0
  let l2 := propReplace "font-family:".data "font-family:Arial,sans-serif;".data (l1.length + 1) l1
  let l3 := fontSizeReplace (l2.length + 1) l2
  let l4 := propReplace "box-shadow:".data [] (l3.length + 1) l3
  let l5 := propReplace "text-shadow:".data [] (l4.length + 1) l4
  let l6 := propReplace "transform:".data [] (l5.length + 1) l5
  let l7 := propReplace "transition:".data [] (l6.length + 1) l6
  let l8 := borderReplace (l7.length + 1) l7
  let l9 := tagAttrReplace "blockquote".data
    (fun cap => "<blockquote".data ++ cap ++
      "><div style=\"padding-left:16px;border-left:4px solid #cccccc;\">".data)
    (l8.length + 1) l8
  let l10 := replaceAllCi "</blockquote>".data "</div></blockquote>".data l9
  let l11 := emptyPRemove (l10.length + 1) l10
  ⟨ensureProperNesting l11⟩

/-- Pass for `/<pre([^>]*)><code([^>]*)>/gi` in `optimizeForWord`. -/
def preCodeWord : Nat → List Char → List Char
  | 0, l => l
  | _ + 1, [] => []
  | fuel + 1, c :: r =>
    if caselessPfx "<pre".data (c :: r) then
      let a1 := (c :: r).drop 4
      let v1 := a1.takeWhile (· ≠ '>')
      match a1.drop v1.length with
      | '>' :: a2 =>
        if caselessPfx "<code".data a2 then
          let a3 := a2.drop 5
          let v2 := a3.takeWhile (· ≠ '>')
          match a3.drop v2.length with
          | '>' :: a4 =>
            "<pre".data ++ v1 ++
              " style=\"font-family:Consolas,monospace;background-color:#f0f0f0;padding:10px;\">".data ++
              "<code".data ++ v2 ++ ">".data ++ preCodeWord fuel a4
          | _ => c :: preCodeWord fuel r
        else c :: preCodeWord fuel r
      | _ => c :: preCodeWord fuel r
    else c :: preCodeWord fuel r

/-- `optimizeForWord`. -/
def optimizeForWord (html : String) : String :=
  let l0 := html.data
  let l1 := propReplace "border-radius:".data [] (l0.length + 1) l0
  let l2 := preCodeWord (l1.length + 1) l1
  ⟨tagAttrReplace "table".data
    (fun cap => "<table".data ++ cap ++ " border=\"1\" cellpadding=\"5\" cellspacing=\"0\">".data)
    (l2.length + 1) l2⟩

/-- `optimizeForNotion`. -/
def optimizeForNotion (html : String) : String :=
  let l0 := html.data
  let l1 := propReplace "background:".data [] (l0.length + 1) l0
  let l2 := propReplace "background-color:".data [] (l1.length + 1) l1
  ⟨ensureProperNesting l2⟩

/-- Pass for `/<open>([^<]+)<\/close>/gi → pre$1post` (Slack markup). -/
def replaceTagPair (openT closeT pre post : List Char) : Nat → List Char → List Char
  | 0, l => l
  | _ + 1, [] => []
  | fuel + 1, c :: r =>
    if caselessPfx openT (c :: r) then
      let after := (c :: r).drop openT.length
      let cap := after.takeWhile (· ≠ '<')
      if !cap.isEmpty && caselessPfx closeT (after.drop cap.length) then
        pre ++ cap ++ post ++
          replaceTagPair openT closeT pre post fuel ((after.drop cap.length).drop closeT.length)
      else c :: replaceTagPair openT closeT pre post fuel r
    else c :: replaceTagPair openT closeT pre post fuel r

/-- Pass for `/<pre[^>]*><code[^>]*>([^<]+)<\/code><\/pre>/gi → '```$1```'`. -/
def preCodeSlack : Nat → List Char → List Char
  | 0, l => l
  | _ + 1, [] => []
  | fuel + 1, c :: r =>
    if caselessPfx "<pre".data (c :: r) then
      let a1 := (c :: r).drop 4
      let v1 := a1.takeWhile (· ≠ '>')
      match a1.drop v1.length with
      | '>' :: a2 =>
        if caselessPfx "<code".data a2 then
          let a3 := a2.drop 5
          let v2 := a3.takeWhile (· ≠ '>')
          match a3.drop v2.length with
          | '>' :: a4 =>
            let cap := a4.takeWhile (· ≠ '<')
            if !cap.isEmpty && caselessPfx "</code></pre>".data (a4.drop cap.length) then
              "```".data ++ cap ++ "```".data ++
                preCodeSlack fuel ((a4.drop cap.length).drop 13)
            else c :: preCodeSlack fuel r
          | _ => c :: preCodeSlack fuel r
        else c :: preCodeSlack fuel r
      | _ => c :: preCodeSlack fuel r
    else c :: preCodeSlack fuel r

/-- Candidate offsets (descending) of `href="` inside the `[^>]+` run, as
tried by the backtracking of `/<a[^>]+href="([^"]+)"[^>]*>([^<]+)<\/a>/gi`. -/
def hrefCandidates (rest : List Char) (rl : Nat) : List Nat :=
  ((List.range (rl + 1)).filter
    (fun k => 1 ≤ k && k + 6 ≤ rl && caselessPfx "href=\"".data (rest.drop k))).reverse

def linkTryAt (rest : List Char) (k : Nat) : Option (List Char × List Char × Nat) :=
  let afterH := rest.drop (k + 6)
  let url := afterH.takeWhile (· ≠ '"')
  if url.isEmpty then none
  else
    match afterH.drop url.length with
    | '"' :: a2 =>
      let v2 := a2.takeWhile (· ≠ '>')
      match a2.drop v2.length with
      | '>' :: a3 =>
        let txt := a3.takeWhile (· ≠ '<')
        if !txt.isEmpty && caselessPfx "</a>".data (a3.drop txt.length) then
          some (url, txt, k + 6 + url.length + 1 + v2.length + 1 + txt.length + 4)
        else none
      | _ => none
    | _ => none

def linkTryList (rest : List Char) : List Nat → Option (List Char × List Char × Nat)
  | [] => none
  | k :: ks =>
    match linkTryAt rest k with
    | some x => some x
    | none => linkTryList rest ks

/-- Pass for the Slack link conversion regex, replacement `<$1|$2>`. -/
def linkSlack : Nat → List Char → List Char
  | 0, l => l
  | _ + 1, [] => []
  | fuel + 1, c :: r =>
    if caselessPfx "<a".data (c :: r) then
      let rest := (c :: r).drop 2
      let run := rest.takeWhile (· ≠ '>')
      match linkTryList rest (hrefCandidates rest run.length) with
      | some ut =>
        '<' :: (ut.1 ++ '|' :: ut.2.1 ++ ['>']) ++ linkSlack fuel (rest.drop ut.2.2)
      | none => c :: linkSlack fuel r
    else c :: linkSlack fuel r

/-- Pass for `/<\/?(w1|w2|...)[^>]*>/gi → '\n'`. -/
def wordTagsToNl (words : List (List Char)) : Nat → List Char → List Char
  | 0, l => l
  | _ + 1, [] => []
  | fuel + 1, c :: r =>
    if c = '<' then
      let body := match r with
        | '/' :: r2 => r2
        | _ => r
      match words.find? (fun w => caselessPfx w body) with
      | some w =>
        let after := body.drop w.length
        let m := after.takeWhile (· ≠ '>')
        match after.drop m.length with
        | '>' :: rest2 => '\n' :: wordTagsToNl words fuel rest2
        | _ => c :: wordTagsToNl words fuel r
      | none => c :: wordTagsToNl words fuel r
    else c :: wordTagsToNl words fuel r

/-- Pass for `/<br\s*\/?>/gi → '\n'`. -/
def brToNl : Nat → List Char → List Char
  | 0, l => l
  | _ + 1, [] => []
  | fuel + 1, c :: r =>
    if caselessPfx "<br".data (c :: r) then
      let a := (c :: r).drop 3
      match a.drop (countWhile isJsSpace a) with
      | '/' :: '>' :: rest => '\n' :: brToNl fuel rest
      | '>' :: rest => '\n' :: brToNl fuel rest
      | _ => c :: brToNl fuel r
    else c :: brToNl fuel r

/-- Index of the first `>` (the end of a `<[^>]+>` match attempt). -/
def firstGt : List Char → Option Nat
  | [] => none
  | c :: r => if c = '>' then some 0 else (firstGt r).map (· + 1)

/-- Pass for `/<[^>]+>/g → ''` (strip remaining tags). -/
def removeTags : Nat → List Char → List Char
  | 0, l => l
  | _ + 1, [] => []
  | fuel + 1, c :: r =>
    if c = '<' then
      match firstGt r with
      | some k => if 1 ≤ k then removeTags fuel (r.drop (k + 1)) else c :: removeTags fuel r
      | none => c :: removeTags fuel r
    else c :: removeTags fuel r

/-- The entity table of `decodeEntities`, in insertion order. -/
def entityPairs : List (List Char × List Char) :=
  [("&amp;".data, ['&']), ("&lt;".data, ['<']), ("&gt;".data, ['>']),
   ("&quot;".data, ['"']), ("&#39;".data, [apos]), ("&nbsp;".data, [' ']),
   ("&mdash;".data, emDash), ("&ndash;".data, enDash), ("&hellip;".data, hellipC),
   ("&ldquo;".data, [ldquo]), ("&rdquo;".data, [rdquo]),
   ("&lsquo;".data, [lsquo]), ("&rsquo;".data, [rsquo])]

/-- `decodeEntities`. -/
def decodeEntities (l : List Char) : List Char :=
  entityPairs.foldl (fun s p => replaceAll p.1 p.2 s) l

/-- Pass for `/\n{3,}/g → '\n\n'`. -/
def collapseNl : Nat → List Char → List Char
  | 0, l => l
  | _ + 1, [] => []
  | fuel + 1, c :: r =>
    if c = '\n' then
      let run := r.takeWhile (· = '\n')
      if run.length + 1 ≥ 3 then '\n' :: '\n' :: collapseNl fuel (r.drop run.length)
      else c :: (run ++ collapseNl fuel (r.drop run.length))
    else c :: collapseNl fuel r

def slackWords : List (List Char) :=
  ["p".data, "div".data, "h1".data, "h2".data, "h3".data, "h4".data, "h5".data,
   "h6".data, "li".data, "tr".data, "blockquote".data]

/-- The Slack pipeline up to and including the final tag-stripping pass
(everything before entity decoding). -/
def slackPreDecode (l0 : List Char) : List Char :=
  let l1 := replaceTagPair "<strong>".data "</strong>".data ['*'] ['*'] (l0.length + 1) l0
  let l2 := replaceTagPair "<b>".data "</b>".data ['*'] ['*'] (l1.length + 1) l1
  let l3 := replaceTagPair "<em>".data "</em>".data ['_'] ['_'] (l2.length + 1) l2
  let l4 := replaceTagPair "<i>".data "</i>".data ['_'] ['_'] (l3.length + 1) l3
  let l5 := replaceTagPair "<del>".data "</del>".data ['~'] ['~'] (l4.length + 1) l4
  let l6 := replaceTagPair "<s>".data "</s>".data ['~'] ['~'] (l5.length + 1) l5
  let l7 := replaceTagPair "<code>".data "</code>".data [btick] [btick] (l6.length + 1) l6
  let l8 := preCodeSlack (l7.length + 1) l7
  let l9 := linkSlack (l8.length + 1) l8
  let l10 := wordTagsToNl slackWords (l9.length + 1) l9
  let l11 := brToNl (l10.length + 1) l10
  let l12 := wordTagsToNl ["ul".data, "ol".data] (l11.length + 1) l11
  removeTags (l12.length + 1) l12

/-- `optimizeForSlack`. -/
def optimizeForSlack (html : String) : String :=
  let t := decodeEntities (slackPreDecode html.data)
  ⟨jsTrim (collapseNl (t.length + 1) t)⟩

/-- `optimize`: platform dispatch with the universal fallback. -/
def optimize (html : String) (platform : String) : String :=
  if platform = "google-docs" then optimizeForGoogleDocs html
  else if platform = "microsoft-word" then optimizeForWord html
  else if platform = "notion" then optimizeForNotion html
  else if platform = "slack" then optimizeForSlack html
  else optimizeUniversal html

/-- Tail scan of the script-element regex after `<script\b[^<]*`:
`(?:(?!<\/script>)<[^<]*)*<\/script>`. -/
def scriptTail : Nat → List Char → Option Nat
  | 0, _ => none
  | fuel + 1, l =>
    let run := l.takeWhile (· ≠ '<')
    match l.drop run.length with
    | '<' :: r2 =>
      if caselessPfx "/script>".data r2 then some (run.length + 9)
      else (scriptTail fuel r2).map (· + run.length + 1)
    | _ => none

/-- Match length of `/<script\b[^<]*(?:(?!<\/script>)<[^<]*)*<\/script>/i`
at the current position. -/
def scriptMatchLen (l : List Char) : Option Nat :=
  if caselessPfx "<script".data l then
    let boundaryOk := match (l.drop 7).head? with
      | some c => !isWordC c
      | none => true
    if boundaryOk then (scriptTail (l.length + 1) (l.drop 7)).map (· + 7) else none
  else none

/-- First sanitize pass: remove script elements. -/
def removeScripts : Nat → List Char → List Char
  | 0, l => l
  | _ + 1, [] => []
  | fuel + 1, c :: r =>
    match scriptMatchLen (c :: r) with
    | some n => removeScripts fuel ((c :: r).drop n)
    | none => c :: removeScripts fuel r

/-- Pass for `/\s+on\w+="..."/gi` (and the single-quoted variant). -/
def evtRemove (q : Char) : Nat → List Char → List Char
  | 0, l => l
  | _ + 1, [] => []
  | fuel + 1, c :: r =>
    if isJsSpace c then
      let a1 := (c :: r).drop (countWhile isJsSpace (c :: r))
      if caselessPfx "on".data a1 then
        let a2 := a1.drop 2
        let nm := a2.takeWhile isWordC
        if !nm.isEmpty then
          match a2.drop nm.length with
          | '=' :: qq :: a4 =>
            if qq = q then
              let v := a4.takeWhile (· ≠ q)
              match a4.drop v.length with
              | _ :: rest => evtRemove q fuel rest
              | [] => c :: evtRemove q fuel r
            else c :: evtRemove q fuel r
          | _ => c :: evtRemove q fuel r
        else c :: evtRemove q fuel r
      else c :: evtRemove q fuel r
    else c :: evtRemove q fuel r

/-- Pass for `/href\s*=\s*["']javascript:[^"']*["']/gi → 'href="#"'`. -/
def hrefJsReplace : Nat → List Char → List Char
  | 0, l => l
  | _ + 1, [] => []
  | fuel + 1, c :: r =>
    if caselessPfx "href".data (c :: r) then
      let a1 := (c :: r).drop 4
      match a1.drop (countWhile isJsSpace a1) with
      | '=' :: a3 =>
        match a3.drop (countWhile isJsSpace a3) with
        | qq :: a5 =>
          if (qq = '"' || qq = apos) && caselessPfx "javascript:".data a5 then
            let v := (a5.drop 11).takeWhile (fun x => x ≠ '"' && x ≠ apos)
            match (a5.drop 11).drop v.length with
            | _ :: rest => "href=\"#\"".data ++ hrefJsReplace fuel rest
            | [] => c :: hrefJsReplace fuel r
          else c :: hrefJsReplace fuel r
        | [] => c :: hrefJsReplace fuel r
      | _ => c :: hrefJsReplace fuel r
    else c :: hrefJsReplace fuel r

/-- Pass for `/src\s*=\s*["']data:(?!image\/)[^"']*["']/gi → 'src=""'`. -/
def srcDataReplace : Nat → List Char → List Char
  | 0, l => l
  | _ + 1, [] => []
  | fuel + 1, c :: r =>
    if caselessPfx "src".data (c :: r) then
      let a1 := (c :: r).drop 3
      match a1.drop (countWhile isJsSpace a1) with
      | '=' :: a3 =>
        match a3.drop (countWhile isJsSpace a3) with
        | qq :: a5 =>
          if (qq = '"' || qq = apos) && caselessPfx "data:".data a5 &&
              !caselessPfx "image/".data (a5.drop 5) then
            let v := (a5.drop 5).takeWhile (fun x => x ≠ '"' && x ≠ apos)
            match (a5.drop 5).drop v.length with
            | _ :: rest => "src=\"\"".data ++ srcDataReplace fuel rest
            | [] => c :: srcDataReplace fuel r
          else c :: srcDataReplace fuel r
        | [] => c :: srcDataReplace fuel r
      | _ => c :: srcDataReplace fuel r
    else c :: srcDataReplace fuel r

/-- `sanitize`: the four XSS-removal passes in source order. -/
def sanitize (html : String) : String :=
  let l0 := html.data
  let l1 := removeScripts (l0.length + 1) l0
  let l2 := evtRemove '"' (l1.length + 1) l1
  let l3 := evtRemove apos (l2.length + 1) l2
  let l4 := hrefJsReplace (l3.length + 1) l3
  ⟨srcDataReplace (l4.length + 1) l4⟩

/-- Specification notion: the text contains an HTML tag, i.e. a substring
matched by `<[^>]+>`. -/
def hasTag : List Char → Bool
  | [] => false
  | c :: r =>
    if c = '<' then
      (match firstGt r with | some k => decide (1 ≤ k) | none => false) || hasTag r
    else hasTag r

/-- Relation: the second list arises from the first by deleting characters,
none of which is `<` or `>` (used to transport tag-freeness through the
newline-collapsing and trimming passes). -/
inductive DelSafe : List Char → List Char → Prop
  | nil : DelSafe [] []
  | keep (c : Char) {s t : List Char} : DelSafe s t → DelSafe (c :: s) (c :: t)
  | del (c : Char) {s t : List Char} :
      c ≠ '<' → c ≠ '>' → DelSafe s t → DelSafe (c :: s) t

end HTMLOptimizer

namespace DocumentExporter

open MdFmt

/-- Capture of `^#\s+(.+)$` in multiline mode starting right after a `#` at
a line start.  `\s+` may cross line breaks; `(.+)` stops at the next one;
when all of `t` is whitespace the engine backtracks so that the capture is
the last non-newline whitespace character reachable with at least one
whitespace character consumed. -/
def headingAtLineStart (t : List Char) : Option (List Char) :=
  let w := countWhile isJsSpace t
  let rest := t.drop w
  if w = 0 then none
  else if !rest.isEmpty then some (rest.takeWhile (· ≠ '\n'))
  else
    ((List.range w).reverse.find? (fun k => 1 ≤ k && t.getD k '\n' ≠ '\n')).map
      (fun k => (t.drop k).takeWhile (· ≠ '\n'))

/-- First match capture of `markdown.match(/^#\s+(.+)$/m)`. -/
def firstHeadingGo : Nat → List Char → Option (List Char)
  | 0, _ => none
  | fuel + 1, l =>
    let res := match l with
      | '#' :: t => headingAtLineStart t
      | _ => none
    match res with
    | some cap => some cap
    | none =>
      let line := l.takeWhile (· ≠ '\n')
      match l.drop line.length with
      | _ :: rest => firstHeadingGo fuel rest
      | [] => none

def firstHeadingCapture (l : List Char) : Option (List Char) :=
  firstHeadingGo (l.length + 1) l

/-- The slug chain inside `setFilename` (before the empty fallback):
lowercase, `[^a-z0-9]+ → '-'`, `substring(0, 50)`, `^-|-$ → ''`. -/
def slugFileRaw (l : List Char) : List Char :=
  let a := l.map lowerC
  let b := collapseRuns (fun c => !(('a' ≤ c && c ≤ 'z') || isDigitC c)) '-' a
  stripOneDashEach (b.take 50)

/-- `setFilename` applied to a heading capture. -/
def setFilenameName (l : List Char) : List Char :=
  let s := slugFileRaw l
  if s.isEmpty then "exported-document".data else s

/-- `extractFilename` on a freshly constructed exporter
(`this.filename = 'exported-document'`). -/
def extractFilename (md : String) : String :=
  match firstHeadingCapture md.data with
  | some nm => ⟨setFilenameName nm⟩
  | none => "exported-document"

end DocumentExporter

namespace DiagramHandler

open MdFmt

def boxDrawingChars : List Char :=
  "─│┌┐└┘├┤┬┴┼═║╔╗╚╝╠╣╦╩╬".data

def arrowChars : List Char :=
  "←→↑↓↔↕⇐⇒⇑⇓<>^v".data

/-- `asciiPatterns.boxDrawing.test`. -/
def boxDrawingTest (l : List Char) : Bool := l.any (boxDrawingChars.contains ·)

/-- `asciiPatterns.simpleBox.test` (`[\+\-\|]`). -/
def simpleBoxTest (l : List Char) : Bool := l.any (fun c => c = '+' || c = '-' || c = '|')

/-- `asciiPatterns.arrows.test`. -/
def arrowsTest (l : List Char) : Bool := l.any (arrowChars.contains ·)

/-- `hasConsistentLineWidth`.  The source computes mean and variance with
JS doubles; the comparison `variance < avgLength * 0.5` is modelled by the
exact integer inequality obtained by clearing denominators. -/
def hasConsistentLineWidth (lines : List (List Char)) : Bool :=
  let ne := lines.filter (fun l => !(jsTrim l).isEmpty)
  if ne.length < 2 then false
  else
    let ls : List Int := ne.map (fun l => (l.length : Int))
    let n : Int := (ne.length : Int)
    let s : Int := ls.foldl (· + ·) 0
    let a : Int := (ls.map (fun x => (n * x - s) * (n * x - s))).foldl (· + ·) 0
    2 * a < n * n * s

/-- Count of maximal runs of `c` with length at least `minLen`
(`/[c]{minLen,}/g` match count). -/
def countRuns (c : Char) (minLen : Nat) : Nat → List Char → Nat
  | 0, _ => 0
  | _ + 1, [] => 0
  | fuel + 1, x :: r =>
    if x = c then
      let run := (x :: r).takeWhile (· = c)
      (if run.length ≥ minLen then 1 else 0) + countRuns c minLen fuel ((x :: r).drop run.length)
    else countRuns c minLen fuel r

/-- Match count of `/[|]\s*[|]/g`. -/
def countPipePairs : Nat → List Char → Nat
  | 0, _ => 0
  | _ + 1, [] => 0
  | fuel + 1, c :: r =>
    if c = '|' then
      let w := r.takeWhile isJsSpace
      match r.drop w.length with
      | '|' :: rest => 1 + countPipePairs fuel rest
      | _ => countPipePairs fuel r
    else countPipePairs fuel r

/-- Match count of `/\+[-]+\+/g`. -/
def countPlusBox : Nat → List Char → Nat
  | 0, _ => 0
  | _ + 1, [] => 0
  | fuel + 1, c :: r =>
    if c = '+' then
      let ds := r.takeWhile (· = '-')
      if !ds.isEmpty then
        match r.drop ds.length with
        | '+' :: rest => 1 + countPlusBox fuel rest
        | _ => countPlusBox fuel r
      else countPlusBox fuel r
    else countPlusBox fuel r

/-- `hasRepeatedStructure`: at least two of the六 patterns occur twice. -/
def hasRepeatedStructure (l : List Char) : Bool :=
  let m :=
    (if countRuns '-' 3 (l.length + 1) l ≥ 2 then 1 else 0) +
    (if countRuns '=' 3 (l.length + 1) l ≥ 2 then 1 else 0) +
    (if countPipePairs (l.length + 1) l ≥ 2 then 1 else 0) +
    (if countPlusBox (l.length + 1) l ≥ 2 then 1 else 0) +
    (if countRuns (Char.ofNat 0x2500) 3 (l.length + 1) l ≥ 2 then 1 else 0) +
    (if l.count (Char.ofNat 0x2502) ≥ 2 then 1 else 0)
  m ≥ 2

/-- Indices of `|` or `│` within a line. -/
def pipePositions (l : List Char) : List Nat :=
  (l.enum.filter (fun p => p.2 = '|' || p.2 = Char.ofNat 0x2502)).map (·.1)

/-- `hasAlignedElements`. -/
def hasAlignedElements (lines : List (List Char)) : Bool :=
  if lines.length < 3 then false
  else
    let pp := (lines.map pipePositions).filter (fun p => !p.isEmpty)
    if pp.length < 2 then false
    else
      let first := pp.headD []
      let cnt := ((pp.tail).map
        (fun ps => (first.filter (fun pos => ps.contains pos)).length)).foldl (· + ·) 0
      cnt ≥ 2

/-- The weighted score inside `isAsciiDiagram`. -/
def diagramScore (text : String) : Nat :=
  let l := text.data
  let lines := splitNl l
  (if lines.length ≥ 3 then 1 else 0) +
  (if hasConsistentLineWidth lines then 2 else 0) +
  (if boxDrawingTest l || simpleBoxTest l then 3 else 0) +
  (if arrowsTest l then 2 else 0) +
  (if hasRepeatedStructure l then 2 else 0) +
  (if hasAlignedElements lines then 2 else 0) +
  (if containsSub "+--".data l || containsSub "|  ".data l then 2 else 0) +
  (if containsSub "-->".data l || containsSub "<--".data l then 2 else 0) +
  (if containsSub "===".data l || containsSub "---".data l then 1 else 0)

/-- `isAsciiDiagram`: heuristic score against the fixed threshold 4. -/
def isAsciiDiagram (text : String) : Bool :=
  if (jsTrim text.data).isEmpty then false
  else diagramScore text ≥ 4

def isOpenBr (c : Char) : Bool :=
  c = '[' || c = '(' || c = Char.ofNat 123 || c = '<'

def isCloseBr (c : Char) : Bool :=
  c = ']' || c = ')' || c = Char.ofNat 125 || c = '>'

/-- Per-line node scan of `asciiToMermaid`:
`/\+[-]+\+|[\[\(\{<]([^\]\)\}>]+)[\]\)\}>]/g`, returning the raw text of
each match (`match[1] || match[0]`) in order. -/
def nodeScanLine : Nat → List Char → List (List Char)
  | 0, _ => []
  | _ + 1, [] => []
  | fuel + 1, c :: r =>
    if c = '+' then
      let ds := r.takeWhile (· = '-')
      if !ds.isEmpty then
        match r.drop ds.length with
        | '+' :: rest => ('+' :: (ds ++ ['+'])) :: nodeScanLine fuel rest
        | _ => nodeScanLine fuel r
      else nodeScanLine fuel r
    else if isOpenBr c then
      let cap := r.takeWhile (fun x => !isCloseBr x)
      if !cap.isEmpty then
        match r.drop cap.length with
        | _ :: rest =>
          if (r.drop cap.length).head?.any isCloseBr then cap :: nodeScanLine fuel rest
          else nodeScanLine fuel r
        | [] => nodeScanLine fuel r
      else nodeScanLine fuel r
    else nodeScanLine fuel r

/-- `text.replace(/[-+|]/g, '').trim()` for a raw node text. -/
def cleanNode (t : List Char) : List Char :=
  jsTrim (t.filter (fun c => !(c = '-' || c = '+' || c = '|')))

/-- Node extraction: clean, drop empties, dedupe, assign ids `node0`, … -/
def extractNodes (l : List Char) : List (List Char × List Char) :=
  let raw := ((splitNl l).map (fun line => nodeScanLine (line.length + 1) line)).flatten
  (raw.foldl (fun st t =>
    let c := cleanNode t
    if !c.isEmpty && !(st.1.any (fun p => p.1 = c)) then
      (st.1 ++ [(c, ("node" ++ toString st.2).data)], st.2 + 1)
    else st) (([] : List (List Char × List Char)), (0 : Nat))).1

/-- The six arrow patterns with their literal variants and directions. -/
def arrowSpecs : List (List (List Char) × List Char) :=
  [(["->".data, "-->".data], "-->".data),
   (["<-".data, "<--".data], "<--".data),
   (["==>".data], "==>".data),
   (["<==".data], "<==".data),
   (["-.->".data], "-.->".data),
   (["<-.-".data], "<-.-".data)]

/-- Existence test for `/text1.*?arrow.*?text2/s` on the full text. -/
def existsSeq (s t1 t2 : List Char) (vars : List (List Char)) : Bool :=
  (List.range (s.length + 1)).any (fun i =>
    occursAt t1 s i &&
    vars.any (fun v =>
      (List.range (s.length + 1)).any (fun j =>
        i + t1.length ≤ j && occursAt v s j &&
        (List.range (s.length + 1)).any (fun k =>
          j + v.length ≤ k && occursAt t2 s k))))

/-- Connection detection loop of `asciiToMermaid`. -/
def detectConnections (s : List Char) (nodes : List (List Char × List Char)) :
    List (List Char × List Char × List Char) :=
  (nodes.map (fun n1 =>
    (nodes.map (fun n2 =>
      if n1.1 ≠ n2.1 then
        arrowSpecs.filterMap (fun ar =>
          if existsSeq s n1.1 n2.1 ar.1 then some (n1.2, ar.2, n2.2) else none)
      else [])).flatten)).flatten

/-- `asciiToMermaid`: null exactly when no nodes were found; otherwise the
flowchart text with detected connections or the linear-chain fallback. -/
def asciiToMermaid (text : String) : Option String :=
  let nodes := extractNodes text.data
  let conns := detectConnections text.data nodes
  if nodes.isEmpty then none
  else
    let header := "flowchart TD\n".data
    let nodeLines := (nodes.map (fun n =>
      "    ".data ++ n.2 ++ "[\"".data ++ n.1 ++ "\"]\n".data)).flatten
    let connLines := (conns.map (fun c =>
      "    ".data ++ c.1 ++ [' '] ++ c.2.1 ++ [' '] ++ c.2.2 ++ "\n".data)).flatten
    let chain :=
      if conns.isEmpty && nodes.length > 1 then
        ((nodes.zip nodes.tail).map (fun p =>
          "    ".data ++ p.1.2 ++ " --> ".data ++ p.2.2 ++ "\n".data)).flatten
      else []
    some ⟨header ++ nodeLines ++ connLines ++ chain⟩

end DiagramHandler

namespace SpecSide

open MdFmt

/-- Modelled from the C2 claim text: "the slug is the lowercased title with
every run of characters outside [a-z0-9] collapsed to a single hyphen and
leading/trailing hyphens stripped". -/
def claimSlugC2 (l : List Char) : List Char :=
  let a := l.map lowerC
  let b := collapseRuns (fun c => !(('a' ≤ c && c ≤ 'z') || isDigitC c)) '-' a
  (b.dropWhile (· = '-')).reverse.dropWhile (· = '-') |>.reverse

/-- Modelled from the C9 claim text: "the filename is the first top-level
heading lowercased with non-alphanumeric runs collapsed to single hyphens,
truncated, with leading/trailing hyphens stripped, or the fixed fallback
`exported-document` when no top-level heading exists". -/
def claimFilenameC9 (md : String) : String :=
  let heading := (splitNl md.data).findSome? (fun l =>
    match l with
    | '#' :: r =>
      let w := countWhile isJsSpace r
      if w ≥ 1 && !(r.drop w).isEmpty then some (r.drop w) else none
    | _ => none)
  match heading with
  | none => "exported-document"
  | some t =>
    let a := t.map lowerC
    let b := collapseRuns (fun c => !(('a' ≤ c && c ≤ 'z') || isDigitC c)) '-' a
    let c := b.take 50
    ⟨(c.dropWhile (· = '-')).reverse.dropWhile (· = '-') |>.reverse⟩

/-- Per-character reformulation of the amended C9 slug: lowercase, mark
every non-alphanumeric character as a hyphen, then deduplicate adjacent
hyphens.  Used to state the amended claim independently of the source's
run-collapsing scanner. -/
def dedupDash : List Char → List Char
  | [] => []
  | [c] => [c]
  | c :: d :: r =>
    if c = '-' && d = '-' then dedupDash (d :: r) else c :: dedupDash (d :: r)

def specCollapseSlug (l : List Char) : List Char :=
  dedupDash ((l.map lowerC).map
    (fun c => if ('a' ≤ c && c ≤ 'z') || isDigitC c then c else '-'))

/-- Modelled from the amended C9 claim: the filename rule with the code's
heading matcher, truncation to 50, single leading/trailing hyphen strip and
the fallback both when no heading matches and when the slug is empty. -/
def amendedFilenameC9 (md : String) : String :=
  match DocumentExporter.firstHeadingCapture md.data with
  | none => "exported-document"
  | some t =>
    let s := stripOneDashEach ((specCollapseSlug t).take 50)
    if s.isEmpty then "exported-document" else ⟨s⟩

/-- Modelled from the amended C2 claim: the slug is the lowercased title
with characters outside lowercase letters, digits, whitespace and hyphens
removed, every whitespace character replaced by a hyphen, adjacent hyphens
collapsed to one, and one leading and one trailing hyphen stripped. -/
def amendedSlugC2 (l : List Char) : List Char :=
  let b := (l.map lowerC).filter
    (fun c => ('a' ≤ c && c ≤ 'z') || isDigitC c || isJsSpace c || c = '-')
  stripOneDashEach (dedupDash (b.map (fun c => if isJsSpace c then '-' else c)))

end SpecSide

namespace MdFmt

theorem dropLastWhile_cons (p : Char → Bool) (x : Char) (r : List Char) :
    dropLastWhile p (x :: r) =
      (match dropLastWhile p r with
       | [] => if p x then [] else [x]
       | y :: t => x :: y :: t) := rfl

theorem mem_dropWhile_of_not {p : Char → Bool} {l : List Char} {c : Char}
    (hc : c ∈ l) (hp : p c = false) : c ∈ l.dropWhile p := by
  induction l with
  | nil => cases hc
  | cons x r ih =>
    rw [List.dropWhile_cons]
    by_cases hx : p x = true
    · rw [if_pos hx]
      rcases List.mem_cons.1 hc with h | h
      · subst h; rw [hx] at hp; cases hp
      · exact ih h
    · rw [if_neg hx]
      exact hc

theorem mem_dropLastWhile_of_not {p : Char → Bool} {l : List Char} {c : Char}
    (hc : c ∈ l) (hp : p c = false) : c ∈ dropLastWhile p l := by
  induction l with
  | nil => cases hc
  | cons x r ih =>
    rw [dropLastWhile_cons]
    rcases List.mem_cons.1 hc with h | h
    · subst h
      cases hr : dropLastWhile p r with
      | nil => rw [hp]; simp
      | cons y t => exact List.mem_cons_self _ _
    · have hm := ih h
      cases hr : dropLastWhile p r with
      | nil => rw [hr] at hm; cases hm
      | cons y t => rw [hr] at hm; exact List.mem_cons_of_mem _ hm

theorem jsTrim_not_empty {l : List Char} {c : Char}
    (hc : c ∈ l) (hp : isJsSpace c = false) : (jsTrim l).isEmpty = false := by
  have h1 : c ∈ l.dropWhile isJsSpace := mem_dropWhile_of_not hc hp
  have h2 : c ∈ jsTrim l := mem_dropLastWhile_of_not h1 hp
  cases h : jsTrim l with
  | nil => rw [h] at h2; cases h2
  | cons x t => rfl

theorem dropLastWhile_eq_self {p : Char → Bool} {l : List Char} {c : Char}
    (h : l.getLast? = some c) (hc : p c = false) : dropLastWhile p l = l := by
  induction l with
  | nil => cases h
  | cons x r ih =>
    cases r with
    | nil =>
      simp only [List.getLast?_singleton, Option.some.injEq] at h
      subst h
      simp [dropLastWhile, hc]
    | cons y t =>
      have hr : (y :: t).getLast? = some c := by
        rw [List.getLast?_cons_cons] at h; exact h
      rw [dropLastWhile_cons, ih hr]

theorem jsTrim_eq_self {l : List Char} {a b : Char}
    (h1 : l.head? = some a) (ha : isJsSpace a = false)
    (h2 : l.getLast? = some b) (hb : isJsSpace b = false) : jsTrim l = l := by
  cases l with
  | nil => cases h1
  | cons x r =>
    simp only [List.head?_cons, Option.some.injEq] at h1
    subst h1
    unfold jsTrim
    rw [List.dropWhile_cons_of_neg (by simp [ha]), dropLastWhile_eq_self h2 hb]

theorem containsSub_of_pfx {pat t : List Char} (h : pat.isPrefixOf t = true) :
    containsSub pat t = true := by
  cases t with
  | nil =>
    have : pat = [] := by
      cases pat with
      | nil => rfl
      | cons c r => simp [List.isPrefixOf] at h
    simp [containsSub, this]
  | cons c r => simp [containsSub, h]

theorem containsSub_append_left {pat t : List Char} (a : List Char)
    (h : containsSub pat t = true) : containsSub pat (a ++ t) = true := by
  induction a with
  | nil => simpa using h
  | cons c a' ih => simp [containsSub, ih]

theorem pfx_self_append (pat b : List Char) : pat.isPrefixOf (pat ++ b) = true := by
  induction pat with
  | nil => simp [List.isPrefixOf]
  | cons c r ih => simp [List.isPrefixOf, ih]

theorem countWhile_replicate_append {p : Char → Bool} {c : Char} (h : p c = true)
    (n : Nat) (l : List Char) :
    countWhile p (List.replicate n c ++ l) = n + countWhile p l := by
  induction n with
  | zero => simp
  | succ m ih => simp [List.replicate_succ, countWhile, h, ih]; omega

theorem countWhile_cons_of_not {p : Char → Bool} {c : Char} (h : p c = false)
    (l : List Char) : countWhile p (c :: l) = 0 := by
  simp [countWhile, h]

end MdFmt

open MdFmt

/-- C10: a `MarkdownParser` constructed with an options object omitting a
key gives that key its default: breaks=false, linkify=true,
typographer=true, includeStyles=true, highlightCode=false; each omitted
key independently. -/
theorem c10_constructor_defaults (o : MarkdownParser.ParserOptionsInput) :
    (o.breaks = none → (MarkdownParser.mkOptions o).breaks = false) ∧
    (o.linkify = none → (MarkdownParser.mkOptions o).linkify = true) ∧
    (o.typographer = none → (MarkdownParser.mkOptions o).typographer = true) ∧
    (o.includeStyles = none → (MarkdownParser.mkOptions o).includeStyles = true) ∧
    (o.highlightCode = none → (MarkdownParser.mkOptions o).highlightCode = false) := by
  refine ⟨?_, ?_, ?_, ?_, ?_⟩ <;> intro h <;> simp [MarkdownParser.mkOptions, h]

theorem c10_witness :
    (MarkdownParser.mkOptions ⟨none, some false, none, some true, none⟩).breaks = false ∧
    (MarkdownParser.mkOptions ⟨none, some false, none, some true, none⟩).typographer = true ∧
    (MarkdownParser.mkOptions ⟨none, some false, none, some true, none⟩).highlightCode = false :=
  ⟨(c10_constructor_defaults ⟨none, some false, none, some true, none⟩).1 rfl,
   (c10_constructor_defaults ⟨none, some false, none, some true, none⟩).2.2.1 rfl,
   (c10_constructor_defaults ⟨none, some false, none, some true, none⟩).2.2.2.2 rfl⟩

/-- C1: on the failing input `text[^1]` plus the definition line
`[^1]: note`, `parse` emits the superscript reference (`fnref-1` appears)
but no footnote list item at all (no `<li`), because `parseBlocks` resets
`this.footnotes` after `extractFootnotes` has already removed the
definition lines. -/
theorem c1_footnotes_never_rendered :
    (MarkdownParser.parse 8 MarkdownParser.defaultOptions "text[^1]\n[^1]: note").isSome = true ∧
    containsSub "fnref-1".data
      ((MarkdownParser.parse 8 MarkdownParser.defaultOptions "text[^1]\n[^1]: note").getD "").data = true ∧
    countSub "<li".data
      ((MarkdownParser.parse 8 MarkdownParser.defaultOptions "text[^1]\n[^1]: note").getD "").data = 0 := by
  refine ⟨?_, ?_, ?_⟩ <;> decide

/-- C4: `sanitize` is not idempotent.  On the failing input, one pass
splices the removed fragments into a fresh `<script>` element (which
survives, contradicting the function's XSS purpose), and a second pass
removes it. -/
theorem c4_sanitize_not_idempotent :
    HTMLOptimizer.sanitize (HTMLOptimizer.sanitize "<scr<script></script>ipt>a</script>") ≠
      HTMLOptimizer.sanitize "<scr<script></script>ipt>a</script>" ∧
    HTMLOptimizer.sanitize "<scr<script></script>ipt>a</script>" = "<script>a</script>" ∧
    HTMLOptimizer.sanitize "<script>a</script>" = "" := by
  refine ⟨?_, ?_, ?_⟩ <;> decide

/-- C2 counterexample: for the heading `# a.b` the claim's slug formula
gives `a-b`, but the rendered id is `ab` (the code deletes characters
outside `[a-z0-9\s-]` instead of hyphenating them), so the output does not
contain `id="a-b"`. -/
theorem c2_counterexample :
    SpecSide.claimSlugC2 "a.b".data = "a-b".data ∧
    (MarkdownParser.parse 8 MarkdownParser.defaultOptions "# a.b").isSome = true ∧
    containsSub ("id=\"".data ++ SpecSide.claimSlugC2 "a.b".data ++ "\"".data)
      ((MarkdownParser.parse 8 MarkdownParser.defaultOptions "# a.b").getD "").data = false := by
  refine ⟨?_, ?_, ?_⟩ <;> decide

/-- C9 counterexample: on `# !!!` a top-level heading exists and the
claim's formula yields the empty filename, but the code falls back to
`exported-document` (the `|| 'exported-document'` branch the claim does
not mention). -/
theorem c9_counterexample :
    DocumentExporter.extractFilename "# !!!" ≠ SpecSide.claimFilenameC9 "# !!!" ∧
    DocumentExporter.extractFilename "# !!!" = "exported-document" ∧
    SpecSide.claimFilenameC9 "# !!!" = "" := by
  refine ⟨?_, ?_, ?_⟩ <;> decide

/-- C7 counterexample: (a) an input whose `font-family: Helvetica;` sits
inside a `class` attribute loses it to the class-removal pass, so the
Google-Docs output lacks `font-family:Arial,sans-serif;`; (b) the chat
profile decodes entities after stripping tags, so `&lt;b&gt;` becomes the
HTML tag `<b>` in the output. -/
theorem c7_counterexample :
    (containsSub "font-family: Helvetica;".data
        "<p class=\"font-family: Helvetica;\">x</p>".data = true ∧
      containsSub "font-family:Arial,sans-serif;".data
        (HTMLOptimizer.optimizeForGoogleDocs
          "<p class=\"font-family: Helvetica;\">x</p>").data = false) ∧
    HTMLOptimizer.hasTag (HTMLOptimizer.optimizeForSlack "&lt;b&gt;").data = true := by
  exact ⟨⟨by decide, by decide⟩, by decide⟩

/-- C3: the claim that `parse` terminates on every input fails.  On the
input `"# "` the heading regex does not match (its `(.+)` needs a
character after the whitespace) while `parseParagraph`'s stop test
`^#{1,6}\s` does match, so the paragraph consumes zero lines, returns
`endIndex = startIndex - 1`, and the block loop re-enters at the same
index forever: for every fuel bound the loop is still running. -/
theorem c3_parse_diverges_on_hash_space :
    ∀ fuel : Nat, MarkdownParser.parse fuel MarkdownParser.defaultOptions "# " = none := by
  have key : ∀ (fuel : Nat) (blocks : List (List Char)),
      MarkdownParser.parseBlocksGo MarkdownParser.defaultOptions fuel ["# ".data] 0 blocks []
        = none := by
    intro fuel
    induction fuel with
    | zero => intro blocks; rfl
    | succ n ih =>
      intro blocks
      exact ih (blocks ++
        [(MarkdownParser.parseParagraph MarkdownParser.defaultOptions ["# ".data] 0).1])
  intro fuel
  show MarkdownParser.parse fuel MarkdownParser.defaultOptions "# " = none
  unfold MarkdownParser.parse
  rw [if_neg (by decide)]
  have ht : (MarkdownParser.extractFootnotes
      (MarkdownParser.normalizeNl ("# " : String).data)).2 = "# ".data := by decide
  rw [ht]
  have hb : MarkdownParser.parseBlocksTop MarkdownParser.defaultOptions fuel "# ".data = none := by
    unfold MarkdownParser.parseBlocksTop
    have hs : splitNl ("# ".data) = ["# ".data] := by decide
    have hf : MarkdownParser.fnCollect ["# ".data] = [] := by decide
    simp only [hs, hf]
    exact key fuel []
  simp only [hb]

namespace MdFmt

theorem isPrefixOf_append_ext {pat l : List Char} (t : List Char)
    (h : pat.isPrefixOf l = true) : pat.isPrefixOf (l ++ t) = true := by
  induction pat generalizing l with
  | nil => simp [List.isPrefixOf]
  | cons c r ih =>
    cases l with
    | nil => simp [List.isPrefixOf] at h
    | cons x s =>
      simp only [List.isPrefixOf, Bool.and_eq_true] at h
      simp only [List.cons_append, List.isPrefixOf, Bool.and_eq_true]
      exact ⟨h.1, ih h.2⟩

theorem containsSub_append_right {pat l : List Char} (t : List Char)
    (h : containsSub pat l = true) : containsSub pat (l ++ t) = true := by
  induction l with
  | nil =>
    simp only [containsSub, List.isEmpty_eq_true] at h
    subst h
    cases t with
    | nil => rfl
    | cons c r => simp [containsSub, List.isPrefixOf]
  | cons c r ih =>
    simp only [containsSub, Bool.or_eq_true] at h
    rcases h with h | h
    · simp only [List.cons_append, containsSub, Bool.or_eq_true]
      exact Or.inl (isPrefixOf_append_ext t h)
    · simp only [List.cons_append, containsSub, Bool.or_eq_true]
      exact Or.inr (ih h)

end MdFmt

/-- C5: parsing the three-line table `|A|B|`, `|-|-:|`, `|1|2|` yields a
table with exactly one pair of header cells and one pair of body cells,
column 1 left-aligned and column 2 right-aligned; and in general a body
cell whose index has no separator alignment entry is rendered with
`text-align:left;` (the `alignments[i] || 'left'` default). -/
theorem c5_table_alignment :
    ((MarkdownParser.parse 8 MarkdownParser.defaultOptions "|A|B|\n|-|-:|\n|1|2|").isSome = true ∧
      countSub "<th ".data
        ((MarkdownParser.parse 8 MarkdownParser.defaultOptions "|A|B|\n|-|-:|\n|1|2|").getD "").data = 2 ∧
      countSub "<td ".data
        ((MarkdownParser.parse 8 MarkdownParser.defaultOptions "|A|B|\n|-|-:|\n|1|2|").getD "").data = 2 ∧
      containsSub "text-align:left;\">A</th>".data
        ((MarkdownParser.parse 8 MarkdownParser.defaultOptions "|A|B|\n|-|-:|\n|1|2|").getD "").data = true ∧
      containsSub "text-align:right;\">B</th>".data
        ((MarkdownParser.parse 8 MarkdownParser.defaultOptions "|A|B|\n|-|-:|\n|1|2|").getD "").data = true ∧
      containsSub "text-align:left;\">1</td>".data
        ((MarkdownParser.parse 8 MarkdownParser.defaultOptions "|A|B|\n|-|-:|\n|1|2|").getD "").data = true ∧
      containsSub "text-align:right;\">2</td>".data
        ((MarkdownParser.parse 8 MarkdownParser.defaultOptions "|A|B|\n|-|-:|\n|1|2|").getD "").data = true) ∧
    ∀ (aligns : List (List Char)) (i : Nat) (cell : List Char),
      aligns.length ≤ i →
      containsSub "text-align:left;".data
        (MarkdownParser.renderTd MarkdownParser.defaultOptions aligns i cell) = true := by
  constructor
  · refine ⟨?_, ?_, ?_, ?_, ?_, ?_, ?_⟩ <;> decide
  · intro aligns i cell h
    have hd : aligns.getD i "left".data = "left".data := List.getD_eq_default _ _ h
    have he : MarkdownParser.renderTd MarkdownParser.defaultOptions aligns i cell =
        "<td style=\"border:1px solid #ddd;padding:10px 12px;text-align:left;\">".data ++
          (MarkdownParser.parseInline MarkdownParser.defaultOptions cell ++ "</td>".data) := by
      unfold MarkdownParser.renderTd
      rw [hd]
      rfl
    rw [he]
    exact containsSub_append_right _ (by decide)

theorem c5_witness :
    containsSub "text-align:left;".data
      (MarkdownParser.renderTd MarkdownParser.defaultOptions
        ["left".data, "right".data] 2 "x".data) = true :=
  c5_table_alignment.2 ["left".data, "right".data] 2 "x".data (by decide)

/-- C6: every text of at least three lines (in particular four-line
box-drawn diagrams) built from `+`, `-`, `|` with consistent line width
scores at least 4 (multi-line 1, consistent width 2, box characters 3) and
is classified as ASCII art, while the representative single short prose
sentence is not. -/
theorem c6_ascii_detection :
    (∀ text : String,
      (splitNl text.data).length = 4 →
      DiagramHandler.hasConsistentLineWidth (splitNl text.data) = true →
      DiagramHandler.simpleBoxTest text.data = true →
      DiagramHandler.isAsciiDiagram text = true) ∧
    DiagramHandler.isAsciiDiagram "This is a short prose sentence." = false := by
  constructor
  · intro text h4 hcw hbox
    obtain ⟨c, hc, hcc⟩ := List.any_eq_true.1 hbox
    have hsp : isJsSpace c = false := by
      simp only [Bool.or_eq_true, decide_eq_true_eq] at hcc
      rcases hcc with (h | h) | h <;> subst h <;> decide
    have hne : (jsTrim text.data).isEmpty = false := jsTrim_not_empty hc hsp
    unfold DiagramHandler.isAsciiDiagram
    rw [hne]
    simp only [Bool.false_eq_true, if_false, decide_eq_true_eq]
    unfold DiagramHandler.diagramScore
    simp only [h4, hcw, hbox, Bool.or_true]
    split_ifs <;> omega
  · decide

theorem c6_witness :
    DiagramHandler.isAsciiDiagram "+--+\n|  |\n|  |\n+--+" = true :=
  c6_ascii_detection.1 "+--+\n|  |\n|  |\n+--+" (by decide) (by decide) (by decide)

/-- C8: `asciiToMermaid` returns null exactly when the node scan finds no
node; and whenever exactly two nodes are found with no detected arrow
between them, the result is the flowchart with the two nodes in document
order and exactly one edge, the linear-chain fallback `node0 --> node1`. -/
theorem c8_ascii_to_mermaid :
    (∀ text : String, DiagramHandler.asciiToMermaid text = none ↔
        DiagramHandler.extractNodes text.data = []) ∧
    (∀ (text : String) (a b : List Char × List Char),
      DiagramHandler.extractNodes text.data = [a, b] →
      DiagramHandler.detectConnections text.data [a, b] = [] →
      DiagramHandler.asciiToMermaid text =
        some ⟨"flowchart TD\n".data ++
          ("    ".data ++ a.2 ++ "[\"".data ++ a.1 ++ "\"]\n".data) ++
          ("    ".data ++ b.2 ++ "[\"".data ++ b.1 ++ "\"]\n".data) ++
          ("    ".data ++ a.2 ++ " --> ".data ++ b.2 ++ "\n".data)⟩) := by
  constructor
  · intro text
    cases h : DiagramHandler.extractNodes text.data with
    | nil => simp [DiagramHandler.asciiToMermaid, h]
    | cons x xs => simp [DiagramHandler.asciiToMermaid, h]
  · intro text a b h1 h2
    simp only [DiagramHandler.asciiToMermaid, h1, h2]
    simp [List.zip, List.zipWith, List.append_assoc]

theorem c8_witness :
    DiagramHandler.asciiToMermaid "[A] [B]" =
      some "flowchart TD\n    node0[\"A\"]\n    node1[\"B\"]\n    node0 --> node1\n" := by
  have h := c8_ascii_to_mermaid.2 "[A] [B]" ("A".data, "node0".data) ("B".data, "node1".data)
    (by decide) (by decide)
  rw [h]
  decide

theorem dedupDash_cons_of_ne {c : Char} (hc : c ≠ '-') (xs : List Char) :
    SpecSide.dedupDash (c :: xs) = c :: SpecSide.dedupDash xs := by
  cases xs with
  | nil => rfl
  | cons d r => simp [SpecSide.dedupDash, hc]

theorem length_dropWhile_le_self (p : Char → Bool) (l : List Char) :
    (l.dropWhile p).length ≤ l.length := by
  induction l with
  | nil => simp
  | cons c t ih =>
    rw [List.dropWhile_cons]
    by_cases hc : p c = true
    · rw [if_pos hc]; simp only [List.length_cons]; omega
    · rw [if_neg (by simpa using hc)]

theorem dedupDash_cons_dash (p : Char → Bool) (mark : Char → Char)
    (hm1 : ∀ c, p c = true → mark c = '-')
    (hm2 : ∀ c, p c = false → mark c = c ∧ c ≠ '-') :
    ∀ t : List Char,
      SpecSide.dedupDash ('-' :: t.map mark) =
        '-' :: SpecSide.dedupDash ((t.dropWhile p).map mark) := by
  intro t
  induction t with
  | nil => rfl
  | cons d t2 ih =>
    by_cases hd : p d = true
    · rw [List.map_cons, hm1 d hd]
      have hstep : SpecSide.dedupDash ('-' :: '-' :: t2.map mark) =
          SpecSide.dedupDash ('-' :: t2.map mark) := by
        simp [SpecSide.dedupDash]
      rw [hstep, ih, List.dropWhile_cons, if_pos hd]
    · have hd' : p d = false := by simpa using hd
      obtain ⟨hmd, hne⟩ := hm2 d hd'
      rw [List.map_cons, hmd, List.dropWhile_cons, if_neg (by simp [hd'])]
      rw [List.map_cons, hmd]
      simp [SpecSide.dedupDash, hne]

theorem collapseRunsGo_eq_dedup (p : Char → Bool) (mark : Char → Char)
    (hm1 : ∀ c, p c = true → mark c = '-')
    (hm2 : ∀ c, p c = false → mark c = c ∧ c ≠ '-') :
    ∀ (fuel : Nat) (l : List Char), l.length < fuel →
      collapseRunsGo p '-' fuel l = SpecSide.dedupDash (l.map mark) := by
  intro fuel
  induction fuel with
  | zero => intro l h; omega
  | succ n ih =>
    intro l h
    cases l with
    | nil => rfl
    | cons c t =>
      simp only [List.length_cons, Nat.succ_lt_succ_iff] at h
      by_cases hc : p c = true
      · rw [show collapseRunsGo p '-' (n + 1) (c :: t) =
            '-' :: collapseRunsGo p '-' n (t.dropWhile p) from by
          simp [collapseRunsGo, hc]]
        rw [ih _ (Nat.lt_of_le_of_lt (length_dropWhile_le_self p t) h)]
        rw [List.map_cons, hm1 c hc, dedupDash_cons_dash p mark hm1 hm2 t]
      · have hc' : p c = false := by simpa using hc
        obtain ⟨hmc, hne⟩ := hm2 c hc'
        rw [show collapseRunsGo p '-' (n + 1) (c :: t) =
            c :: collapseRunsGo p '-' n t from by simp [collapseRunsGo, hc']]
        rw [ih _ h, List.map_cons, hmc, dedupDash_cons_of_ne hne]

theorem collapseRuns_eq_dedup (p : Char → Bool) (mark : Char → Char)
    (hm1 : ∀ c, p c = true → mark c = '-')
    (hm2 : ∀ c, p c = false → mark c = c ∧ c ≠ '-') (l : List Char) :
    collapseRuns p '-' l = SpecSide.dedupDash (l.map mark) :=
  collapseRunsGo_eq_dedup p mark hm1 hm2 _ l (Nat.lt_succ_self _)

theorem slugFileRaw_eq_spec (t : List Char) :
    DocumentExporter.slugFileRaw t =
      stripOneDashEach ((SpecSide.specCollapseSlug t).take 50) := by
  show stripOneDashEach
      ((collapseRuns (fun c => !(('a' ≤ c && c ≤ 'z') || isDigitC c)) '-'
        (t.map lowerC)).take 50) =
    stripOneDashEach ((SpecSide.specCollapseSlug t).take 50)
  rw [collapseRuns_eq_dedup
    (fun c => !(('a' ≤ c && c ≤ 'z') || isDigitC c))
    (fun c => if ('a' ≤ c && c ≤ 'z') || isDigitC c then c else '-')
    (by
      intro c h
      simp only [] at h ⊢
      cases hx : (('a' ≤ c && c ≤ 'z') || isDigitC c) with
      | true => rw [hx] at h; simp at h
      | false => simp [hx])
    (by
      intro c h
      simp only [] at h ⊢
      cases hx : (('a' ≤ c && c ≤ 'z') || isDigitC c) with
      | false => rw [hx] at h; simp at h
      | true =>
        refine ⟨by simp [hx], ?_⟩
        intro he
        subst he
        exact absurd hx (by decide))
    (t.map lowerC)]
  rfl

/-- C9 amended: the exported base filename always equals the amended
specification: derived from the first `^#\s+(.+)$` heading match
(whitespace may span a line break), lowercased with non-alphanumeric runs
collapsed to single hyphens, truncated to 50 characters, one leading and
one trailing hyphen stripped, falling back to `exported-document` both
when there is no heading match and when the resulting slug is empty; in
particular `# My Cool Report!` yields `my-cool-report`. -/
theorem c9_filename_derivation :
    (∀ md : String, DocumentExporter.extractFilename md = SpecSide.amendedFilenameC9 md) ∧
    DocumentExporter.extractFilename "# My Cool Report!" = "my-cool-report" := by
  constructor
  · intro md
    unfold DocumentExporter.extractFilename SpecSide.amendedFilenameC9
    cases h : DocumentExporter.firstHeadingCapture md.data with
    | none => rfl
    | some t =>
      show (⟨if (DocumentExporter.slugFileRaw t).isEmpty = true then
              "exported-document".data else DocumentExporter.slugFileRaw t⟩ : String) =
        (if (stripOneDashEach ((SpecSide.specCollapseSlug t).take 50)).isEmpty = true then
          "exported-document"
        else ⟨stripOneDashEach ((SpecSide.specCollapseSlug t).take 50)⟩)
      rw [slugFileRaw_eq_spec t]
      by_cases hs :
          (stripOneDashEach ((SpecSide.specCollapseSlug t).take 50)).isEmpty = true <;>
        simp [hs]
  · decide

theorem dropWhile_dropWhile_imp {p q : Char → Bool} (h : ∀ c, q c = true → p c = true) :
    ∀ l : List Char, (l.dropWhile q).dropWhile p = l.dropWhile p := by
  intro l
  induction l with
  | nil => rfl
  | cons c t ih =>
    by_cases hq : q c = true
    · rw [List.dropWhile_cons, if_pos hq, ih, List.dropWhile_cons, if_pos (h c hq)]
    · rw [List.dropWhile_cons, if_neg hq]

theorem dedupDash_cons_dash_drop (X : List Char) :
    SpecSide.dedupDash ('-' :: X) =
      '-' :: SpecSide.dedupDash (X.dropWhile (fun c => c = '-')) := by
  have h := dedupDash_cons_dash (fun c => decide (c = '-')) id
    (fun c hc => of_decide_eq_true hc)
    (fun c hc => ⟨rfl, of_decide_eq_false hc⟩) X
  simpa using h

theorem dedupDash_cons_dash_union (t : List Char) :
    SpecSide.dedupDash ('-' :: t.map (fun c => if isJsSpace c then '-' else c)) =
      '-' :: SpecSide.dedupDash
        ((t.dropWhile (fun c => isJsSpace c || c = '-')).map
          (fun c => if isJsSpace c then '-' else c)) := by
  refine dedupDash_cons_dash (fun c => isJsSpace c || decide (c = '-'))
    (fun c => if isJsSpace c then '-' else c) ?_ ?_ t
  · intro c hc
    have hc2 : (isJsSpace c || decide (c = '-')) = true := hc
    by_cases hw : isJsSpace c = true
    · simp [hw]
    · have hd : decide (c = '-') = true := by
        rcases Bool.or_eq_true_iff.1 hc2 with h | h
        · exact absurd h hw
        · exact h
      have hcd := of_decide_eq_true hd
      subst hcd
      simp
  · intro c hc
    have hc2 : (isJsSpace c || decide (c = '-')) = false := hc
    have h1 : isJsSpace c = false := by
      cases hx : isJsSpace c
      · rfl
      · rw [hx] at hc2; simp at hc2
    have h2 : decide (c = '-') = false := by
      cases hx : decide (c = '-')
      · rfl
      · rw [hx] at hc2; simp [h1] at hc2
    exact ⟨by simp [h1], of_decide_eq_false h2⟩

theorem collapseWs_dedup (n : Nat) :
    (∀ u : List Char, u.length < n →
      SpecSide.dedupDash (collapseRunsGo isJsSpace '-' n u) =
        SpecSide.dedupDash (u.map (fun c => if isJsSpace c then '-' else c))) ∧
    (∀ u : List Char, u.length < n →
      SpecSide.dedupDash ((collapseRunsGo isJsSpace '-' n u).dropWhile (fun c => c = '-')) =
        SpecSide.dedupDash ((u.dropWhile (fun c => isJsSpace c || c = '-')).map
          (fun c => if isJsSpace c then '-' else c))) := by
  induction n with
  | zero => exact ⟨fun u h => absurd h (by omega), fun u h => absurd h (by omega)⟩
  | succ n ih =>
    obtain ⟨ihB, ihL⟩ := ih
    constructor
    · intro u hu
      cases u with
      | nil => rfl
      | cons c t =>
        simp only [List.length_cons, Nat.succ_lt_succ_iff] at hu
        by_cases hw : isJsSpace c = true
        · rw [show collapseRunsGo isJsSpace '-' (n + 1) (c :: t) =
              '-' :: collapseRunsGo isJsSpace '-' n (t.dropWhile isJsSpace) from by
            simp [collapseRunsGo, hw]]
          rw [dedupDash_cons_dash_drop]
          rw [ihL _ (Nat.lt_of_le_of_lt (length_dropWhile_le_self _ _) hu)]
          rw [dropWhile_dropWhile_imp (fun c hc => by simp [hc]) t]
          rw [show ((c :: t).map (fun x => if isJsSpace x then '-' else x)) =
              '-' :: t.map (fun x => if isJsSpace x then '-' else x) from by simp [hw]]
          rw [dedupDash_cons_dash_union t]
        · have hw' : isJsSpace c = false := by simpa using hw
          rw [show collapseRunsGo isJsSpace '-' (n + 1) (c :: t) =
              c :: collapseRunsGo isJsSpace '-' n t from by simp [collapseRunsGo, hw']]
          rw [show ((c :: t).map (fun x => if isJsSpace x then '-' else x)) =
              c :: t.map (fun x => if isJsSpace x then '-' else x) from by simp [hw']]
          by_cases hd : c = '-'
          · subst hd
            rw [dedupDash_cons_dash_drop]
            rw [ihL _ hu]
            rw [dedupDash_cons_dash_union t]
          · rw [dedupDash_cons_of_ne hd, dedupDash_cons_of_ne hd, ihB _ hu]
    · intro u hu
      cases u with
      | nil => rfl
      | cons c t =>
        simp only [List.length_cons, Nat.succ_lt_succ_iff] at hu
        by_cases hw : isJsSpace c = true
        · rw [show collapseRunsGo isJsSpace '-' (n + 1) (c :: t) =
              '-' :: collapseRunsGo isJsSpace '-' n (t.dropWhile isJsSpace) from by
            simp [collapseRunsGo, hw]]
          rw [show (('-' :: collapseRunsGo isJsSpace '-' n (t.dropWhile isJsSpace)).dropWhile
              (fun c => c = '-')) =
            (collapseRunsGo isJsSpace '-' n (t.dropWhile isJsSpace)).dropWhile
              (fun c => c = '-') from by simp]
          rw [ihL _ (Nat.lt_of_le_of_lt (length_dropWhile_le_self _ _) hu)]
          rw [dropWhile_dropWhile_imp (fun c hc => by simp [hc]) t]
          rw [show ((c :: t).dropWhile (fun c => isJsSpace c || c = '-')) =
              t.dropWhile (fun c => isJsSpace c || c = '-') from by
            rw [List.dropWhile_cons, if_pos (by simp [hw])]]
        · have hw' : isJsSpace c = false := by simpa using hw
          rw [show collapseRunsGo isJsSpace '-' (n + 1) (c :: t) =
              c :: collapseRunsGo isJsSpace '-' n t from by simp [collapseRunsGo, hw']]
          by_cases hd : c = '-'
          · subst hd
            rw [show (('-' :: collapseRunsGo isJsSpace '-' n t).dropWhile
                (fun c => c = '-')) =
              (collapseRunsGo isJsSpace '-' n t).dropWhile (fun c => c = '-') from by simp]
            rw [ihL _ hu]
            rw [show ((('-') :: t).dropWhile (fun c => isJsSpace c || c = '-')) =
                t.dropWhile (fun c => isJsSpace c || c = '-') from by
              rw [List.dropWhile_cons, if_pos (by simp)]]
          · rw [show ((c :: collapseRunsGo isJsSpace '-' n t).dropWhile
                (fun c => c = '-')) =
              c :: collapseRunsGo isJsSpace '-' n t from by
              rw [List.dropWhile_cons, if_neg (by simp [hd])]]
            rw [show ((c :: t).dropWhile (fun c => isJsSpace c || c = '-')) =
                c :: t from by
              rw [List.dropWhile_cons, if_neg (by simp [hw', hd])]]
            rw [show ((c :: t).map (fun x => if isJsSpace x then '-' else x)) =
                c :: t.map (fun x => if isJsSpace x then '-' else x) from by simp [hw']]
            rw [dedupDash_cons_of_ne hd, dedupDash_cons_of_ne hd, ihB _ hu]

theorem slugify_eq_amendedSlug (l : List Char) :
    MarkdownParser.slugify l = SpecSide.amendedSlugC2 l := by
  unfold MarkdownParser.slugify SpecSide.amendedSlugC2
  show stripOneDashEach
      (collapseRuns (fun c => decide (c = '-')) '-'
        (collapseRuns isJsSpace '-'
          ((l.map lowerC).filter
            (fun c => ('a' ≤ c && c ≤ 'z') || isDigitC c || isJsSpace c || c = '-')))) =
    stripOneDashEach
      (SpecSide.dedupDash
        (((l.map lowerC).filter
            (fun c => ('a' ≤ c && c ≤ 'z') || isDigitC c || isJsSpace c || c = '-')).map
          (fun c => if isJsSpace c then '-' else c)))
  rw [collapseRuns_eq_dedup (fun c => decide (c = '-')) id
    (fun c hc => of_decide_eq_true hc)
    (fun c hc => ⟨rfl, of_decide_eq_false hc⟩)]
  rw [List.map_id]
  show stripOneDashEach
      (SpecSide.dedupDash
        (collapseRunsGo isJsSpace '-'
          (((l.map lowerC).filter
            (fun c => ('a' ≤ c && c ≤ 'z') || isDigitC c || isJsSpace c || c = '-')).length + 1)
          ((l.map lowerC).filter
            (fun c => ('a' ≤ c && c ≤ 'z') || isDigitC c || isJsSpace c || c = '-')))) = _
  rw [(collapseWs_dedup _).1 _ (Nat.lt_succ_self _)]

theorem splitChar_eq_self {sep : Char} {l : List Char} (h : ∀ c ∈ l, c ≠ sep) :
    splitChar sep l = [l] := by
  induction l with
  | nil => rfl
  | cons c r ih =>
    have hc : ¬ c = sep := h c (List.mem_cons_self c r)
    have hr := ih (fun x hx => h x (List.mem_cons_of_mem c hx))
    rw [show splitChar sep (c :: r) =
        (if c = sep then [] :: splitChar sep r
         else match splitChar sep r with
           | [] => [[c]]
           | x :: t => (c :: x) :: t) from rfl]
    rw [if_neg hc, hr]

theorem map_eq_self_of_fix {f : Char → Char} {l : List Char} (h : ∀ c ∈ l, f c = c) :
    l.map f = l := by
  induction l with
  | nil => rfl
  | cons c r ih =>
    rw [List.map_cons, h c (List.mem_cons_self c r),
      ih (fun x hx => h x (List.mem_cons_of_mem c hx))]

theorem replaceAllGo_not_mem {a : Char} {ps rep : List Char} :
    ∀ (fuel : Nat) (l : List Char), a ∉ l →
      replaceAllGo (a :: ps) rep fuel l = l := by
  intro fuel
  induction fuel with
  | zero => intro l h; cases l <;> rfl
  | succ n ih =>
    intro l h
    cases l with
    | nil => rfl
    | cons c r =>
      have hac : ((a :: ps).isPrefixOf (c :: r)) = false := by
        rw [show ((a :: ps).isPrefixOf (c :: r)) = ((a == c) && ps.isPrefixOf r) from rfl]
        have hne : (a == c) = false := by
          cases hb : a == c
          · rfl
          · have hmem : a ∈ c :: r := by
              rw [eq_of_beq hb]
              exact List.mem_cons_self c r
            exact absurd hmem h
        rw [hne]
        rfl
      simp only [replaceAllGo]
      rw [hac, Bool.and_false]
      rw [if_neg Bool.false_ne_true]
      rw [ih r (fun hm => h (List.mem_cons_of_mem c hm))]

theorem getLast?_append_right {b : List Char} {c : Char} (a : List Char)
    (h : b.getLast? = some c) : (a ++ b).getLast? = some c := by
  induction a with
  | nil => simpa using h
  | cons x a2 ih =>
    have hb : a2 ++ b ≠ [] := by
      intro hB
      rcases List.append_eq_nil.1 hB with ⟨h1, h2⟩
      rw [h2] at h
      cases h
    rw [List.cons_append]
    cases hab : a2 ++ b with
    | nil => exact absurd hab hb
    | cons y t =>
      rw [List.getLast?_cons_cons, ← hab]
      exact ih

theorem drop_replicate_append (c : Char) : ∀ (n : Nat) (l : List Char),
    (List.replicate n c ++ l).drop n = l := by
  intro n
  induction n with
  | zero => intro l; rfl
  | succ k ih =>
    intro l
    rw [List.replicate_succ, List.cons_append, List.drop_succ_cons, ih]

theorem parseBlocksGo_step_heading (o : MarkdownParser.ParserOptions) (fuel : Nat)
    (L : List Char) (k : Nat) (t : List Char)
    (hfn : MarkdownParser.fnDefCapture L = none)
    (hpre : ("```".data.isPrefixOf L) = false)
    (hhc : MarkdownParser.headingCapture L = some (k, t))
    (blocks : List (List Char)) (fn : List (List Char × List Char)) :
    MarkdownParser.parseBlocksGo o (fuel + 1) [L] 0 blocks fn =
      MarkdownParser.parseBlocksGo o fuel [L] 1
        (blocks ++ ["<h".data ++ (toString k).data ++ " id=\"".data ++
          MarkdownParser.slugify t ++ "\"".data ++ MarkdownParser.headingStyleAttr o k ++
          ">".data ++ MarkdownParser.parseInline o t ++ "</h".data ++ (toString k).data ++
          ">".data]) fn := by
  have hdd : (decide (0 + 1 < ([L] : List (List Char)).length) &&
      MarkdownParser.ddFullMatch (([L] : List (List Char)).getD (0 + 1) [])) = false := rfl
  have hts : MarkdownParser.isTableStart [L] 0 = false := rfl
  have hdl : MarkdownParser.isDefinitionList [L] 0 = false := rfl
  simp only [MarkdownParser.parseBlocksGo, List.getD_cons_zero]
  rw [if_neg (show ¬ (0 ≥ ([L] : List (List Char)).length) from by simp)]
  rw [if_neg (show ¬ ((MarkdownParser.fnDefCapture L).isSome = true) from by
    rw [hfn]; simp)]
  rw [if_neg (show ¬ ((decide (0 + 1 < ([L] : List (List Char)).length) &&
      MarkdownParser.ddFullMatch (([L] : List (List Char)).getD (0 + 1) [])) = true) from by
    rw [hdd]; exact Bool.false_ne_true)]
  rw [if_neg (show ¬ (("```".data.isPrefixOf L) = true) from by
    rw [hpre]; exact Bool.false_ne_true)]
  rw [if_neg (show ¬ (MarkdownParser.isTableStart [L] 0 = true) from by
    rw [hts]; exact Bool.false_ne_true)]
  rw [if_neg (show ¬ (MarkdownParser.isDefinitionList [L] 0 = true) from by
    rw [hdl]; exact Bool.false_ne_true)]
  rw [hhc]

theorem parse_single_heading (k : Nat) (t L : List Char)
    (hnl : ∀ c ∈ L, c ≠ '\n') (hcr : ∀ c ∈ L, c ≠ '\r')
    (hne : L ≠ [])
    (hfnd : MarkdownParser.fnDefCapture L = none)
    (hpre : ("```".data.isPrefixOf L) = false)
    (hhc : MarkdownParser.headingCapture L = some (k, t)) :
    MarkdownParser.parse 2 MarkdownParser.defaultOptions ⟨L⟩ =
      some ⟨jsTrim ("<h".data ++ (toString k).data ++ " id=\"".data ++
        MarkdownParser.slugify t ++ "\"".data ++
        MarkdownParser.headingStyleAttr MarkdownParser.defaultOptions k ++ ">".data ++
        MarkdownParser.parseInline MarkdownParser.defaultOptions t ++
        "</h".data ++ (toString k).data ++ ">".data)⟩ := by
  have hsplit : splitNl L = [L] := splitChar_eq_self hnl
  have hfc : MarkdownParser.fnCollect [L] = [] := by
    unfold MarkdownParser.fnCollect
    simp only [List.foldl_cons, List.foldl_nil]
    rw [hfnd]
  have hrep : replaceAll "\r\n".data "\n".data L = L := by
    unfold replaceAll
    rw [show ("\r\n".data : List Char) = '\r' :: "\n".data from rfl]
    exact replaceAllGo_not_mem _ _ (fun hm => hcr '\r' hm rfl)
  have hnorm : MarkdownParser.normalizeNl L = L := by
    unfold MarkdownParser.normalizeNl
    rw [hrep]
    exact map_eq_self_of_fix (fun c hc => if_neg (hcr c hc))
  have hex2 : (MarkdownParser.extractFootnotes L).2 = L := by
    unfold MarkdownParser.extractFootnotes
    simp only [hsplit, List.filter_cons]
    rw [hfnd]
    rfl
  have hne0 : (⟨L⟩ : String) ≠ "" := by
    intro hEq
    have h2 := congrArg String.data hEq
    exact hne h2
  have hgo : MarkdownParser.parseBlocksGo MarkdownParser.defaultOptions 2 [L] 0 [] [] =
      some ("<h".data ++ (toString k).data ++ " id=\"".data ++
        MarkdownParser.slugify t ++ "\"".data ++
        MarkdownParser.headingStyleAttr MarkdownParser.defaultOptions k ++ ">".data ++
        MarkdownParser.parseInline MarkdownParser.defaultOptions t ++
        "</h".data ++ (toString k).data ++ ">".data, []) := by
    show MarkdownParser.parseBlocksGo MarkdownParser.defaultOptions (1 + 1) [L] 0 [] [] = _
    rw [parseBlocksGo_step_heading MarkdownParser.defaultOptions 1 L k t hfnd hpre hhc [] []]
    rfl
  have hpbt : MarkdownParser.parseBlocksTop MarkdownParser.defaultOptions 2 L =
      some ("<h".data ++ (toString k).data ++ " id=\"".data ++
        MarkdownParser.slugify t ++ "\"".data ++
        MarkdownParser.headingStyleAttr MarkdownParser.defaultOptions k ++ ">".data ++
        MarkdownParser.parseInline MarkdownParser.defaultOptions t ++
        "</h".data ++ (toString k).data ++ ">".data, []) := by
    unfold MarkdownParser.parseBlocksTop
    simp only [hsplit, hfc]
    exact hgo
  unfold MarkdownParser.parse
  rw [if_neg hne0]
  rw [show (⟨L⟩ : String).data = L from rfl]
  rw [hnorm, hex2]
  simp only [hpbt]
  rfl

/-- C2 amended: for every heading level `n = m + 1` in 1..6 and every
nonempty single-line title that does not begin with whitespace, parsing
the line of `n` hash marks, a space and the title yields exactly the
`<hn>` element whose id is the amended slug of the title: the lowercased
title with characters outside lowercase letters, digits, whitespace and
hyphens removed, whitespace replaced by hyphens, adjacent hyphens
collapsed to one, and one leading and one trailing hyphen stripped
(the original claim's "every run outside [a-z0-9] becomes a hyphen" is
refuted separately: slugify deletes other punctuation instead). -/
theorem c2_heading_amended (m : Nat) (title : String)
    (h6 : m + 1 ≤ 6) (h3 : title.data ≠ [])
    (h4 : ∀ c ∈ title.data, c ≠ '\n' ∧ c ≠ '\r')
    (h5 : ∀ c ∈ title.data.take 1, isJsSpace c = false) :
    MarkdownParser.parse 2 MarkdownParser.defaultOptions
        ⟨List.replicate (m + 1) '#' ++ ' ' :: title.data⟩ =
      some ⟨"<h".data ++ (toString (m + 1)).data ++ " id=\"".data ++
        SpecSide.amendedSlugC2 title.data ++ "\"".data ++
        MarkdownParser.headingStyleAttr MarkdownParser.defaultOptions (m + 1) ++ ">".data ++
        MarkdownParser.parseInline MarkdownParser.defaultOptions title.data ++
        "</h".data ++ (toString (m + 1)).data ++ ">".data⟩ := by
  have hcons : (List.replicate (m + 1) '#' ++ ' ' :: title.data) =
      '#' :: (List.replicate m '#' ++ ' ' :: title.data) := by
    rw [List.replicate_succ]
    rfl
  have hmem : ∀ c ∈ List.replicate (m + 1) '#' ++ ' ' :: title.data,
      c = '#' ∨ c = ' ' ∨ c ∈ title.data := by
    intro c hc
    rcases List.mem_append.1 hc with h | h
    · exact Or.inl (List.eq_of_mem_replicate h)
    · rcases List.mem_cons.1 h with h | h
      · exact Or.inr (Or.inl h)
      · exact Or.inr (Or.inr h)
  have hnl : ∀ c ∈ List.replicate (m + 1) '#' ++ ' ' :: title.data, c ≠ '\n' := by
    intro c hc
    rcases hmem c hc with h | h | h
    · subst h; decide
    · subst h; decide
    · exact (h4 c h).1
  have hcr : ∀ c ∈ List.replicate (m + 1) '#' ++ ' ' :: title.data, c ≠ '\r' := by
    intro c hc
    rcases hmem c hc with h | h | h
    · subst h; decide
    · subst h; decide
    · exact (h4 c h).2
  have hne : (List.replicate (m + 1) '#' ++ ' ' :: title.data) ≠ [] := by
    rw [hcons]
    simp
  have hfnd : MarkdownParser.fnDefCapture
      (List.replicate (m + 1) '#' ++ ' ' :: title.data) = none := by
    rw [hcons]
    rfl
  have hpre : ("```".data.isPrefixOf
      (List.replicate (m + 1) '#' ++ ' ' :: title.data)) = false := by
    rw [hcons]
    rfl
  have htc : MarkdownParser.tailCapture 1 (' ' :: title.data) = some title.data := by
    obtain ⟨a, r, hT⟩ : ∃ a r, title.data = a :: r := by
      cases hT : title.data with
      | nil => exact absurd hT h3
      | cons a r => exact ⟨a, r, rfl⟩
    have ha : isJsSpace a = false := h5 a (by rw [hT]; simp)
    unfold MarkdownParser.tailCapture
    have hw : countWhile isJsSpace (' ' :: title.data) = 1 := by
      rw [show countWhile isJsSpace (' ' :: title.data) =
          (if isJsSpace ' ' then countWhile isJsSpace title.data + 1 else 0) from rfl]
      rw [if_pos (by decide), hT, countWhile_cons_of_not ha]
    simp only [hw]
    rw [if_neg (by omega)]
    rw [show (' ' :: title.data).drop 1 = title.data from rfl]
    rw [if_pos (show (!title.data.isEmpty) = true from by rw [hT]; rfl)]
  have hhc : MarkdownParser.headingCapture
      (List.replicate (m + 1) '#' ++ ' ' :: title.data) = some (m + 1, title.data) := by
    unfold MarkdownParser.headingCapture
    have hk : countWhile (fun c => decide (c = '#'))
        (List.replicate (m + 1) '#' ++ ' ' :: title.data) = m + 1 := by
      rw [countWhile_replicate_append (by decide)]
      rw [countWhile_cons_of_not (by decide)]
    simp only [hk]
    rw [if_pos (show (decide (1 ≤ m + 1) && decide (m + 1 ≤ 6)) = true from by
      simp only [Bool.and_eq_true, decide_eq_true_eq]
      exact ⟨Nat.succ_le_succ (Nat.zero_le m), h6⟩)]
    rw [drop_replicate_append '#' (m + 1) (' ' :: title.data)]
    rw [htc]
  have hmain := parse_single_heading (m + 1) title.data
    (List.replicate (m + 1) '#' ++ ' ' :: title.data) hnl hcr hne hfnd hpre hhc
  rw [hmain]
  rw [jsTrim_eq_self
    (show ("<h".data ++ (toString (m + 1)).data ++ " id=\"".data ++
      MarkdownParser.slugify title.data ++ "\"".data ++
      MarkdownParser.headingStyleAttr MarkdownParser.defaultOptions (m + 1) ++ ">".data ++
      MarkdownParser.parseInline MarkdownParser.defaultOptions title.data ++
      "</h".data ++ (toString (m + 1)).data ++ ">".data).head? = some '<' from rfl)
    (by decide)
    (getLast?_append_right _ (show (">".data : List Char).getLast? = some '>' from rfl))
    (by decide)]
  rw [slugify_eq_amendedSlug]

theorem c2_heading_amended_witness :
    2 + 1 ≤ 6 ∧ ("My Title!" : String).data ≠ [] ∧
    (∀ c ∈ ("My Title!" : String).data, c ≠ '\n' ∧ c ≠ '\r') ∧
    (∀ c ∈ ("My Title!" : String).data.take 1, isJsSpace c = false) ∧
    MarkdownParser.parse 2 MarkdownParser.defaultOptions
        ⟨List.replicate (2 + 1) '#' ++ ' ' :: ("My Title!" : String).data⟩ =
      some ⟨"<h".data ++ (toString (2 + 1)).data ++ " id=\"".data ++
        SpecSide.amendedSlugC2 ("My Title!" : String).data ++ "\"".data ++
        MarkdownParser.headingStyleAttr MarkdownParser.defaultOptions (2 + 1) ++ ">".data ++
        MarkdownParser.parseInline MarkdownParser.defaultOptions ("My Title!" : String).data ++
        "</h".data ++ (toString (2 + 1)).data ++ ">".data⟩ :=
  ⟨by decide, by decide, by decide, by decide,
    c2_heading_amended 2 "My Title!" (by decide) (by decide) (by decide) (by decide)⟩

theorem firstGt_none_iff (l : List Char) :
    HTMLOptimizer.firstGt l = none ↔ '>' ∉ l := by
  induction l with
  | nil => simp [HTMLOptimizer.firstGt]
  | cons c r ih =>
    by_cases hc : c = '>'
    · subst hc
      simp [HTMLOptimizer.firstGt]
    · rw [show HTMLOptimizer.firstGt (c :: r) =
          (if c = '>' then some 0 else (HTMLOptimizer.firstGt r).map (· + 1)) from rfl]
      rw [if_neg hc]
      constructor
      · intro h hm
        rcases List.mem_cons.1 hm with h2 | h2
        · exact hc h2.symm
        · have : HTMLOptimizer.firstGt r = none := by
            cases hg : HTMLOptimizer.firstGt r
            · rfl
            · rw [hg] at h; cases h
          exact (ih.1 this) h2
      · intro h
        have : '>' ∉ r := fun hm => h (List.mem_cons_of_mem c hm)
        rw [ih.2 this]
        rfl

theorem firstGt_some_zero {l : List Char} (h : HTMLOptimizer.firstGt l = some 0) :
    ∃ r, l = '>' :: r := by
  cases l with
  | nil => cases h
  | cons c r =>
    by_cases hc : c = '>'
    · exact ⟨r, by rw [hc]⟩
    · rw [show HTMLOptimizer.firstGt (c :: r) =
          (if c = '>' then some 0 else (HTMLOptimizer.firstGt r).map (· + 1)) from rfl,
        if_neg hc] at h
      cases hg : HTMLOptimizer.firstGt r with
      | none => rw [hg] at h; cases h
      | some k =>
        rw [hg] at h
        simp at h

theorem hasTag_cons_ne {c : Char} (hc : ¬ c = '<') (l : List Char) :
    HTMLOptimizer.hasTag (c :: l) = HTMLOptimizer.hasTag l := by
  rw [show HTMLOptimizer.hasTag (c :: l) =
      (if c = '<' then
        ((match HTMLOptimizer.firstGt l with
          | some k => decide (1 ≤ k)
          | none => false) || HTMLOptimizer.hasTag l)
      else HTMLOptimizer.hasTag l) from rfl]
  rw [if_neg hc]

theorem hasTag_cons_lt (l : List Char) :
    HTMLOptimizer.hasTag ('<' :: l) =
      ((match HTMLOptimizer.firstGt l with
        | some k => decide (1 ≤ k)
        | none => false) || HTMLOptimizer.hasTag l) := rfl

theorem removeTags_cons_lt (n : Nat) (r : List Char) :
    HTMLOptimizer.removeTags (n + 1) ('<' :: r) =
      (match HTMLOptimizer.firstGt r with
       | some k =>
         if 1 ≤ k then HTMLOptimizer.removeTags n (r.drop (k + 1))
         else '<' :: HTMLOptimizer.removeTags n r
       | none => '<' :: HTMLOptimizer.removeTags n r) := rfl

theorem removeTags_cons_ne {c : Char} (hc : ¬ c = '<') (n : Nat) (r : List Char) :
    HTMLOptimizer.removeTags (n + 1) (c :: r) = c :: HTMLOptimizer.removeTags n r := by
  rw [show HTMLOptimizer.removeTags (n + 1) (c :: r) =
      (if c = '<' then
        (match HTMLOptimizer.firstGt r with
         | some k =>
           if 1 ≤ k then HTMLOptimizer.removeTags n (r.drop (k + 1))
           else c :: HTMLOptimizer.removeTags n r
         | none => c :: HTMLOptimizer.removeTags n r)
      else c :: HTMLOptimizer.removeTags n r) from rfl]
  rw [if_neg hc]

theorem removeTags_subset : ∀ (fuel : Nat) (l : List Char) (x : Char),
    x ∈ HTMLOptimizer.removeTags fuel l → x ∈ l := by
  intro fuel
  induction fuel with
  | zero => intro l x hx; exact hx
  | succ n ih =>
    intro l x hx
    cases l with
    | nil => exact absurd hx (List.not_mem_nil x)
    | cons c r =>
      by_cases hc : c = '<'
      · subst hc
        rw [removeTags_cons_lt] at hx
        cases hg : HTMLOptimizer.firstGt r with
        | some k =>
          rw [hg] at hx
          simp only [] at hx
          by_cases hk : 1 ≤ k
          · rw [if_pos hk] at hx
            exact List.mem_cons_of_mem _ (List.drop_subset _ _ (ih _ x hx))
          · rw [if_neg hk] at hx
            rcases List.mem_cons.1 hx with h2 | h2
            · exact h2 ▸ List.mem_cons_self _ _
            · exact List.mem_cons_of_mem _ (ih _ x h2)
        | none =>
          rw [hg] at hx
          simp only [] at hx
          rcases List.mem_cons.1 hx with h2 | h2
          · exact h2 ▸ List.mem_cons_self _ _
          · exact List.mem_cons_of_mem _ (ih _ x h2)
      · rw [removeTags_cons_ne hc] at hx
        rcases List.mem_cons.1 hx with h2 | h2
        · exact h2 ▸ List.mem_cons_self _ _
        · exact List.mem_cons_of_mem _ (ih _ x h2)

theorem removeTags_gt_head (fuel : Nat) (r2 : List Char) :
    (HTMLOptimizer.removeTags fuel ('>' :: r2)).head? = some '>' := by
  cases fuel with
  | zero => rfl
  | succ m =>
    rw [removeTags_cons_ne (by decide)]
    rfl

theorem firstGt_of_head_gt {l : List Char} (h : l.head? = some '>') :
    HTMLOptimizer.firstGt l = some 0 := by
  cases l with
  | nil => cases h
  | cons c r =>
    simp only [List.head?_cons, Option.some.injEq] at h
    subst h
    rfl

theorem hasTag_removeTags : ∀ (fuel : Nat) (l : List Char), l.length < fuel →
    HTMLOptimizer.hasTag (HTMLOptimizer.removeTags fuel l) = false := by
  intro fuel
  induction fuel with
  | zero => intro l h; omega
  | succ n ih =>
    intro l h
    cases l with
    | nil => rfl
    | cons c r =>
      simp only [List.length_cons, Nat.succ_lt_succ_iff] at h
      by_cases hc : c = '<'
      · subst hc
        rw [removeTags_cons_lt]
        cases hg : HTMLOptimizer.firstGt r with
        | some k =>
          simp only []
          by_cases hk : 1 ≤ k
          · rw [if_pos hk]
            exact ih _ (by rw [List.length_drop]; omega)
          · rw [if_neg hk]
            have hk0 : k = 0 := by omega
            subst hk0
            obtain ⟨r2, hr⟩ := firstGt_some_zero hg
            subst hr
            rw [hasTag_cons_lt]
            rw [firstGt_of_head_gt (removeTags_gt_head n r2)]
            rw [ih _ h]
            rfl
        | none =>
          simp only []
          rw [hasTag_cons_lt]
          have hng : '>' ∉ HTMLOptimizer.removeTags n r := by
            intro hm
            exact ((firstGt_none_iff r).1 hg) (removeTags_subset n r '>' hm)
          rw [(firstGt_none_iff _).2 hng]
          rw [ih _ h]
          rfl
      · rw [removeTags_cons_ne hc, hasTag_cons_ne hc]
        exact ih _ h

theorem DelSafe_refl : ∀ l : List Char, HTMLOptimizer.DelSafe l l := by
  intro l
  induction l with
  | nil => exact HTMLOptimizer.DelSafe.nil
  | cons c r ih => exact HTMLOptimizer.DelSafe.keep c ih

theorem DelSafe_subset {s t : List Char} (h : HTMLOptimizer.DelSafe s t) :
    ∀ x ∈ t, x ∈ s := by
  induction h with
  | nil => intro x hx; exact hx
  | keep c _ ih =>
    intro x hx
    rcases List.mem_cons.1 hx with h2 | h2
    · exact h2 ▸ List.mem_cons_self _ _
    · exact List.mem_cons_of_mem _ (ih x h2)
  | del c _ _ _ ih =>
    intro x hx
    exact List.mem_cons_of_mem _ (ih x hx)

theorem DelSafe_trans {a b : List Char} (hab : HTMLOptimizer.DelSafe a b) :
    ∀ {u : List Char}, HTMLOptimizer.DelSafe b u → HTMLOptimizer.DelSafe a u := by
  induction hab with
  | nil =>
    intro u hbu
    exact hbu
  | keep c _ ih =>
    intro u hbu
    cases hbu with
    | keep _ h2 => exact HTMLOptimizer.DelSafe.keep c (ih h2)
    | del _ h1 h2 h3 => exact HTMLOptimizer.DelSafe.del c h1 h2 (ih h3)
  | del c h1 h2 _ ih =>
    intro u hbu
    exact HTMLOptimizer.DelSafe.del c h1 h2 (ih hbu)

theorem DelSafe_cons_gt {s t : List Char} (h : HTMLOptimizer.DelSafe ('>' :: s) t) :
    ∃ t2, t = '>' :: t2 ∧ HTMLOptimizer.DelSafe s t2 := by
  cases h with
  | keep _ h2 => exact ⟨_, rfl, h2⟩
  | del _ h1 h2 h3 => exact absurd rfl h2

theorem DelSafe_hasTag {s t : List Char} (hd : HTMLOptimizer.DelSafe s t)
    (h : HTMLOptimizer.hasTag s = false) : HTMLOptimizer.hasTag t = false := by
  induction hd with
  | nil => rfl
  | @keep c s2 t2 hst ih =>
    by_cases hc : c = '<'
    · subst hc
      rw [hasTag_cons_lt] at h ⊢
      rcases Bool.or_eq_false_iff.1 h with ⟨h1, h2⟩
      rw [ih h2]
      cases hg : HTMLOptimizer.firstGt t2 with
      | none => rfl
      | some k =>
        simp only []
        cases hg2 : HTMLOptimizer.firstGt s2 with
        | none =>
          have hgt : '>' ∉ s2 := (firstGt_none_iff s2).1 hg2
          have hgt2 : '>' ∉ t2 := fun hm => hgt (DelSafe_subset hst '>' hm)
          rw [(firstGt_none_iff t2).2 hgt2] at hg
          cases hg
        | some k2 =>
          rw [hg2] at h1
          simp only [] at h1
          have hk2 : k2 = 0 := by
            cases k2 with
            | zero => rfl
            | succ j => simp at h1
          subst hk2
          obtain ⟨s3, hs3⟩ := firstGt_some_zero hg2
          subst hs3
          obtain ⟨t3, ht3, _⟩ := DelSafe_cons_gt hst
          subst ht3
          rw [firstGt_of_head_gt (by rfl)] at hg
          have hk : k = 0 := by
            rw [Option.some.injEq] at hg
            omega
          subst hk
          simp
    · rw [hasTag_cons_ne hc] at h ⊢
      exact ih h
  | @del c s2 t2 h1 h2 hst ih =>
    rw [hasTag_cons_ne h1] at h
    exact ih h

theorem DelSafe_all_del {u s t : List Char} (hu : ∀ c ∈ u, c ≠ '<' ∧ c ≠ '>')
    (h : HTMLOptimizer.DelSafe s t) : HTMLOptimizer.DelSafe (u ++ s) t := by
  induction u with
  | nil => exact h
  | cons c u2 ih =>
    obtain ⟨h1, h2⟩ := hu c (List.mem_cons_self c u2)
    exact HTMLOptimizer.DelSafe.del c h1 h2
      (ih (fun x hx => hu x (List.mem_cons_of_mem c hx)))

theorem DelSafe_append_left (u : List Char) {s t : List Char}
    (h : HTMLOptimizer.DelSafe s t) : HTMLOptimizer.DelSafe (u ++ s) (u ++ t) := by
  induction u with
  | nil => exact h
  | cons c u2 ih => exact HTMLOptimizer.DelSafe.keep c ih

theorem drop_length_takeWhile (p : Char → Bool) :
    ∀ l : List Char, l.drop (l.takeWhile p).length = l.dropWhile p := by
  intro l
  induction l with
  | nil => rfl
  | cons c r ih =>
    by_cases hc : p c = true
    · rw [List.takeWhile_cons, if_pos hc, List.length_cons, List.drop_succ_cons, ih,
        List.dropWhile_cons, if_pos hc]
    · rw [List.takeWhile_cons, if_neg hc, List.length_nil, List.drop_zero,
        List.dropWhile_cons, if_neg hc]

theorem mem_takeWhile_pred {p : Char → Bool} :
    ∀ {l : List Char} {x : Char}, x ∈ l.takeWhile p → p x = true := by
  intro l
  induction l with
  | nil => intro x hx; exact absurd hx (List.not_mem_nil x)
  | cons c r ih =>
    intro x hx
    by_cases hc : p c = true
    · rw [List.takeWhile_cons, if_pos hc] at hx
      rcases List.mem_cons.1 hx with h2 | h2
      · exact h2 ▸ hc
      · exact ih h2
    · rw [List.takeWhile_cons, if_neg hc] at hx
      exact absurd hx (List.not_mem_nil x)

theorem DelSafe_collapseNl : ∀ (fuel : Nat) (l : List Char),
    HTMLOptimizer.DelSafe l (HTMLOptimizer.collapseNl fuel l) := by
  intro fuel
  induction fuel with
  | zero => intro l; exact DelSafe_refl l
  | succ n ih =>
    intro l
    cases l with
    | nil => exact HTMLOptimizer.DelSafe.nil
    | cons c r =>
      by_cases hc : c = '\n'
      · subst hc
        rw [show HTMLOptimizer.collapseNl (n + 1) ('\n' :: r) =
            (let run := r.takeWhile (fun x => x = '\n')
             if run.length + 1 ≥ 3 then
               '\n' :: '\n' :: HTMLOptimizer.collapseNl n (r.drop run.length)
             else '\n' :: (run ++ HTMLOptimizer.collapseNl n (r.drop run.length))) from rfl]
        simp only []
        by_cases hrun : (r.takeWhile (fun x => x = '\n')).length + 1 ≥ 3
        · rw [if_pos hrun]
          obtain ⟨x, run2, hx⟩ : ∃ x run2,
              r.takeWhile (fun c => c = '\n') = x :: run2 := by
            cases hT : r.takeWhile (fun c => c = '\n') with
            | nil => rw [hT] at hrun; simp at hrun
            | cons x run2 => exact ⟨x, run2, rfl⟩
          have hxnl : x = '\n' := of_decide_eq_true (mem_takeWhile_pred
            (by rw [hx]; exact List.mem_cons_self x run2))
          subst hxnl
          rw [hx]
          refine HTMLOptimizer.DelSafe.keep '\n' ?_
          have hr2 : r = '\n' :: (run2 ++ r.drop (('\n' :: run2).length)) := by
            conv_lhs => rw [show r = r.takeWhile (fun x => x = '\n') ++
              r.drop (r.takeWhile (fun x => x = '\n')).length from by
                rw [drop_length_takeWhile]
                exact (List.takeWhile_append_dropWhile _ _).symm]
            rw [hx]
            rfl
          conv_lhs => rw [hr2]
          refine HTMLOptimizer.DelSafe.keep '\n' ?_
          refine DelSafe_all_del ?_ (ih _)
          intro y hy
          have hynl : y = '\n' := of_decide_eq_true (mem_takeWhile_pred
            (by rw [hx]; exact List.mem_cons_of_mem _ hy))
          subst hynl
          exact ⟨by decide, by decide⟩
        · rw [if_neg hrun]
          refine HTMLOptimizer.DelSafe.keep '\n' ?_
          have hr : r = r.takeWhile (fun x => x = '\n') ++
              r.drop (r.takeWhile (fun x => x = '\n')).length := by
            rw [drop_length_takeWhile]
            exact (List.takeWhile_append_dropWhile _ _).symm
          conv_lhs => rw [hr]
          exact DelSafe_append_left _ (ih _)
      · rw [show HTMLOptimizer.collapseNl (n + 1) (c :: r) =
            (if c = '\n' then
              (let run := r.takeWhile (fun x => x = '\n')
               if run.length + 1 ≥ 3 then
                 '\n' :: '\n' :: HTMLOptimizer.collapseNl n (r.drop run.length)
               else c :: (run ++ HTMLOptimizer.collapseNl n (r.drop run.length)))
            else c :: HTMLOptimizer.collapseNl n r) from rfl]
        rw [if_neg hc]
        exact HTMLOptimizer.DelSafe.keep c (ih r)

theorem DelSafe_dropWhileWs (l : List Char) :
    HTMLOptimizer.DelSafe l (l.dropWhile isJsSpace) := by
  have hr : l = l.takeWhile isJsSpace ++ l.drop (l.takeWhile isJsSpace).length := by
    rw [drop_length_takeWhile]
    exact (List.takeWhile_append_dropWhile _ _).symm
  conv_lhs => rw [hr]
  rw [drop_length_takeWhile]
  refine DelSafe_all_del ?_ (DelSafe_refl _)
  intro y hy
  have hw : isJsSpace y = true := mem_takeWhile_pred hy
  constructor
  · intro he; subst he; exact absurd hw (by decide)
  · intro he; subst he; exact absurd hw (by decide)

theorem DelSafe_dropLastWhileWs : ∀ l : List Char,
    HTMLOptimizer.DelSafe l (dropLastWhile isJsSpace l) := by
  intro l
  induction l with
  | nil => exact HTMLOptimizer.DelSafe.nil
  | cons c r ih =>
    rw [dropLastWhile_cons]
    cases hT : dropLastWhile isJsSpace r with
    | nil =>
      rw [hT] at ih
      by_cases hc : isJsSpace c = true
      · rw [if_pos hc]
        refine HTMLOptimizer.DelSafe.del c ?_ ?_ ih
        · intro he; subst he; exact absurd hc (by decide)
        · intro he; subst he; exact absurd hc (by decide)
      · rw [if_neg hc]
        exact HTMLOptimizer.DelSafe.keep c ih
    | cons x t =>
      rw [hT] at ih
      exact HTMLOptimizer.DelSafe.keep c ih

theorem DelSafe_jsTrim (l : List Char) :
    HTMLOptimizer.DelSafe l (jsTrim l) :=
  DelSafe_trans (DelSafe_dropWhileWs l) (DelSafe_dropLastWhileWs _)

theorem mem_takeWhile_sub {p : Char → Bool} :
    ∀ {l : List Char} {x : Char}, x ∈ l.takeWhile p → x ∈ l := by
  intro l
  induction l with
  | nil => intro x hx; exact hx
  | cons c r ih =>
    intro x hx
    by_cases hc : p c = true
    · rw [List.takeWhile_cons, if_pos hc] at hx
      rcases List.mem_cons.1 hx with h2 | h2
      · exact h2 ▸ List.mem_cons_self _ _
      · exact List.mem_cons_of_mem _ (ih h2)
    · rw [List.takeWhile_cons, if_neg hc] at hx
      exact absurd hx (List.not_mem_nil x)

theorem replaceTagPair_subset (o2 c2 pre post : List Char) :
    ∀ (fuel : Nat) (l : List Char) (x : Char),
      x ∈ HTMLOptimizer.replaceTagPair o2 c2 pre post fuel l →
        x ∈ l ∨ x ∈ pre ∨ x ∈ post := by
  intro fuel
  induction fuel with
  | zero => intro l x hx; exact Or.inl hx
  | succ n ih =>
    intro l x hx
    cases l with
    | nil => exact absurd hx (List.not_mem_nil x)
    | cons c r =>
      simp only [HTMLOptimizer.replaceTagPair] at hx
      split at hx
      · split at hx
        · rcases List.mem_append.1 hx with h1 | h1
          · rcases List.mem_append.1 h1 with h2 | h2
            · rcases List.mem_append.1 h2 with h3 | h3
              · exact Or.inr (Or.inl h3)
              · exact Or.inl (List.drop_subset _ _ (mem_takeWhile_sub h3))
            · exact Or.inr (Or.inr h2)
          · rcases ih _ x h1 with h4 | h4
            · exact Or.inl (List.drop_subset _ _ (List.drop_subset _ _
                (List.drop_subset _ _ h4)))
            · exact Or.inr h4
        · rcases List.mem_cons.1 hx with h2 | h2
          · exact Or.inl (h2 ▸ List.mem_cons_self _ _)
          · rcases ih _ x h2 with h3 | h3
            · exact Or.inl (List.mem_cons_of_mem _ h3)
            · exact Or.inr h3
      · rcases List.mem_cons.1 hx with h2 | h2
        · exact Or.inl (h2 ▸ List.mem_cons_self _ _)
        · rcases ih _ x h2 with h3 | h3
          · exact Or.inl (List.mem_cons_of_mem _ h3)
          · exact Or.inr h3

theorem preCodeSlack_subset :
    ∀ (fuel : Nat) (l : List Char) (x : Char),
      x ∈ HTMLOptimizer.preCodeSlack fuel l → x ∈ l ∨ x ∈ "```".data := by
  intro fuel
  induction fuel with
  | zero => intro l x hx; exact Or.inl hx
  | succ n ih =>
    intro l x hx
    cases l with
    | nil => exact absurd hx (List.not_mem_nil x)
    | cons c r =>
      simp only [HTMLOptimizer.preCodeSlack] at hx
      split at hx
      · split at hx
        · rename_i a2 heq1
          split at hx
          · split at hx
            · rename_i a4 heq2
              split at hx
              · have hmem4 : ∀ y, y ∈ a4 → y ∈ c :: r := by
                  intro y hy
                  have h1 : y ∈ ('>' : Char) :: a4 := List.mem_cons_of_mem _ hy
                  rw [← heq2] at h1
                  have h2 := List.drop_subset _ _ h1
                  have h3 := List.drop_subset _ _ h2
                  have h4 : y ∈ ('>' : Char) :: a2 := List.mem_cons_of_mem _ h3
                  rw [← heq1] at h4
                  have h5 := List.drop_subset _ _ h4
                  exact List.drop_subset _ _ h5
                rcases List.mem_append.1 hx with h1 | h1
                · rcases List.mem_append.1 h1 with h2 | h2
                  · rcases List.mem_append.1 h2 with h3 | h3
                    · exact Or.inr h3
                    · exact Or.inl (hmem4 x (mem_takeWhile_sub h3))
                  · exact Or.inr h2
                · rcases ih _ x h1 with h4 | h4
                  · exact Or.inl (hmem4 x (List.drop_subset _ _ (List.drop_subset _ _ h4)))
                  · exact Or.inr h4
              · rcases List.mem_cons.1 hx with h2 | h2
                · exact Or.inl (h2 ▸ List.mem_cons_self _ _)
                · rcases ih _ x h2 with h3 | h3
                  · exact Or.inl (List.mem_cons_of_mem _ h3)
                  · exact Or.inr h3
            · rcases List.mem_cons.1 hx with h2 | h2
              · exact Or.inl (h2 ▸ List.mem_cons_self _ _)
              · rcases ih _ x h2 with h3 | h3
                · exact Or.inl (List.mem_cons_of_mem _ h3)
                · exact Or.inr h3
          · rcases List.mem_cons.1 hx with h2 | h2
            · exact Or.inl (h2 ▸ List.mem_cons_self _ _)
            · rcases ih _ x h2 with h3 | h3
              · exact Or.inl (List.mem_cons_of_mem _ h3)
              · exact Or.inr h3
        · rcases List.mem_cons.1 hx with h2 | h2
          · exact Or.inl (h2 ▸ List.mem_cons_self _ _)
          · rcases ih _ x h2 with h3 | h3
            · exact Or.inl (List.mem_cons_of_mem _ h3)
            · exact Or.inr h3
      · rcases List.mem_cons.1 hx with h2 | h2
        · exact Or.inl (h2 ▸ List.mem_cons_self _ _)
        · rcases ih _ x h2 with h3 | h3
          · exact Or.inl (List.mem_cons_of_mem _ h3)
          · exact Or.inr h3

theorem linkTryAt_subset {rest : List Char} {k : Nat}
    {ut : List Char × List Char × Nat}
    (h : HTMLOptimizer.linkTryAt rest k = some ut) :
    (∀ y ∈ ut.1, y ∈ rest) ∧ (∀ y ∈ ut.2.1, y ∈ rest) := by
  obtain ⟨u, t2, m⟩ := ut
  simp only [HTMLOptimizer.linkTryAt] at h
  split at h
  · exact Option.noConfusion h
  · split at h
    · rename_i a2 heq1
      split at h
      · rename_i a3 heq2
        split at h
        · rw [Option.some.injEq, Prod.mk.injEq] at h
          obtain ⟨hu, h2⟩ := h
          rw [Prod.mk.injEq] at h2
          obtain ⟨ht, _⟩ := h2
          constructor
          · intro y hy
            rw [← hu] at hy
            exact List.drop_subset _ _ (mem_takeWhile_sub hy)
          · intro y hy
            rw [← ht] at hy
            have h1 : y ∈ ('>' : Char) :: a3 :=
              List.mem_cons_of_mem _ (mem_takeWhile_sub hy)
            rw [← heq2] at h1
            have h2 := List.drop_subset _ _ h1
            have h3 : y ∈ ('"' : Char) :: a2 := List.mem_cons_of_mem _ h2
            rw [← heq1] at h3
            exact List.drop_subset _ _ (List.drop_subset _ _ h3)
        · exact Option.noConfusion h
      · exact Option.noConfusion h
    · exact Option.noConfusion h

theorem linkTryList_subset {rest : List Char} : ∀ {ks : List Nat}
    {ut : List Char × List Char × Nat},
    HTMLOptimizer.linkTryList rest ks = some ut →
      (∀ y ∈ ut.1, y ∈ rest) ∧ (∀ y ∈ ut.2.1, y ∈ rest) := by
  intro ks
  induction ks with
  | nil => intro ut h; exact Option.noConfusion h
  | cons k ks2 ih =>
    intro ut h
    simp only [HTMLOptimizer.linkTryList] at h
    split at h
    · rename_i x hx
      rw [Option.some.injEq] at h
      subst h
      exact linkTryAt_subset hx
    · exact ih h

theorem linkSlack_subset :
    ∀ (fuel : Nat) (l : List Char) (x : Char),
      x ∈ HTMLOptimizer.linkSlack fuel l → x ∈ l ∨ x ∈ "<|>".data := by
  intro fuel
  induction fuel with
  | zero => intro l x hx; exact Or.inl hx
  | succ n ih =>
    intro l x hx
    cases l with
    | nil => exact absurd hx (List.not_mem_nil x)
    | cons c r =>
      simp only [HTMLOptimizer.linkSlack] at hx
      split at hx
      · split at hx
        · rename_i ut heq
          have hsub := linkTryList_subset heq
          rcases List.mem_cons.1 hx with h1 | h1
          · exact Or.inr (h1 ▸ (by decide))
          rcases List.mem_append.1 h1 with h2 | h2
          · rcases List.mem_append.1 h2 with h3 | h3
            · rcases List.mem_append.1 h3 with h4 | h4
              · exact Or.inl (List.drop_subset _ _ (hsub.1 x h4))
              · rcases List.mem_cons.1 h4 with h5 | h5
                · exact Or.inr (h5 ▸ (by decide))
                · exact Or.inl (List.drop_subset _ _ (hsub.2 x h5))
            · rcases List.mem_cons.1 h3 with h5 | h5
              · exact Or.inr (h5 ▸ (by decide))
              · exact absurd h5 (List.not_mem_nil x)
          · rcases ih _ x h2 with h4 | h4
            · exact Or.inl (List.drop_subset _ _ (List.drop_subset _ _ h4))
            · exact Or.inr h4
        · rcases List.mem_cons.1 hx with h2 | h2
          · exact Or.inl (h2 ▸ List.mem_cons_self _ _)
          · rcases ih _ x h2 with h3 | h3
            · exact Or.inl (List.mem_cons_of_mem _ h3)
            · exact Or.inr h3
      · rcases List.mem_cons.1 hx with h2 | h2
        · exact Or.inl (h2 ▸ List.mem_cons_self _ _)
        · rcases ih _ x h2 with h3 | h3
          · exact Or.inl (List.mem_cons_of_mem _ h3)
          · exact Or.inr h3

theorem wordTagsToNl_subset (words : List (List Char)) :
    ∀ (fuel : Nat) (l : List Char) (x : Char),
      x ∈ HTMLOptimizer.wordTagsToNl words fuel l → x ∈ l ∨ x = '\n' := by
  intro fuel
  induction fuel with
  | zero => intro l x hx; exact Or.inl hx
  | succ n ih =>
    intro l x hx
    cases l with
    | nil => exact absurd hx (List.not_mem_nil x)
    | cons c r =>
      have hbody : ∀ y : Char,
          y ∈ (match r with | '/' :: r2 => r2 | _ => r) → y ∈ r := by
        intro y
        split
        · exact fun h => List.mem_cons_of_mem _ h
        · exact fun h => h
      simp only [HTMLOptimizer.wordTagsToNl] at hx
      split at hx
      · split at hx
        · rename_i w hfind
          split at hx
          · rename_i rest2 heq
            rcases List.mem_cons.1 hx with h1 | h1
            · exact Or.inr h1
            · rcases ih _ x h1 with h2 | h2
              · refine Or.inl ?_
                have h3 : x ∈ ('>' : Char) :: rest2 := List.mem_cons_of_mem _ h2
                rw [← heq] at h3
                have h4 := List.drop_subset _ _ h3
                have h5 := List.drop_subset _ _ h4
                exact List.mem_cons_of_mem _ (hbody x h5)
              · exact Or.inr h2
          · rcases List.mem_cons.1 hx with h2 | h2
            · exact Or.inl (h2 ▸ List.mem_cons_self _ _)
            · rcases ih _ x h2 with h3 | h3
              · exact Or.inl (List.mem_cons_of_mem _ h3)
              · exact Or.inr h3
        · rcases List.mem_cons.1 hx with h2 | h2
          · exact Or.inl (h2 ▸ List.mem_cons_self _ _)
          · rcases ih _ x h2 with h3 | h3
            · exact Or.inl (List.mem_cons_of_mem _ h3)
            · exact Or.inr h3
      · rcases List.mem_cons.1 hx with h2 | h2
        · exact Or.inl (h2 ▸ List.mem_cons_self _ _)
        · rcases ih _ x h2 with h3 | h3
          · exact Or.inl (List.mem_cons_of_mem _ h3)
          · exact Or.inr h3

theorem brToNl_subset :
    ∀ (fuel : Nat) (l : List Char) (x : Char),
      x ∈ HTMLOptimizer.brToNl fuel l → x ∈ l ∨ x = '\n' := by
  intro fuel
  induction fuel with
  | zero => intro l x hx; exact Or.inl hx
  | succ n ih =>
    intro l x hx
    cases l with
    | nil => exact absurd hx (List.not_mem_nil x)
    | cons c r =>
      simp only [HTMLOptimizer.brToNl] at hx
      split at hx
      · split at hx
        · rename_i rest heq
          rcases List.mem_cons.1 hx with h1 | h1
          · exact Or.inr h1
          · rcases ih _ x h1 with h2 | h2
            · refine Or.inl ?_
              have h3 : x ∈ ('/' : Char) :: '>' :: rest :=
                List.mem_cons_of_mem _ (List.mem_cons_of_mem _ h2)
              rw [← heq] at h3
              exact List.drop_subset _ _ (List.drop_subset _ _ h3)
            · exact Or.inr h2
        · rename_i rest heq
          rcases List.mem_cons.1 hx with h1 | h1
          · exact Or.inr h1
          · rcases ih _ x h1 with h2 | h2
            · refine Or.inl ?_
              have h3 : x ∈ ('>' : Char) :: rest := List.mem_cons_of_mem _ h2
              rw [← heq] at h3
              exact List.drop_subset _ _ (List.drop_subset _ _ h3)
            · exact Or.inr h2
        · rcases List.mem_cons.1 hx with h2 | h2
          · exact Or.inl (h2 ▸ List.mem_cons_self _ _)
          · rcases ih _ x h2 with h3 | h3
            · exact Or.inl (List.mem_cons_of_mem _ h3)
            · exact Or.inr h3
      · rcases List.mem_cons.1 hx with h2 | h2
        · exact Or.inl (h2 ▸ List.mem_cons_self _ _)
        · rcases ih _ x h2 with h3 | h3
          · exact Or.inl (List.mem_cons_of_mem _ h3)
          · exact Or.inr h3

theorem replaceAll_head_not_mem {pat rep l : List Char} {a : Char}
    (hh : pat.head? = some a) (h : a ∉ l) : replaceAll pat rep l = l := by
  cases pat with
  | nil => cases hh
  | cons b t =>
    simp only [List.head?_cons, Option.some.injEq] at hh
    subst hh
    unfold replaceAll
    exact replaceAllGo_not_mem _ _ h

theorem foldl_replaceAll_head_amp :
    ∀ (ps : List (List Char × List Char)) (l : List Char), '&' ∉ l →
      (∀ p ∈ ps, p.1.head? = some '&') →
      ps.foldl (fun s p => replaceAll p.1 p.2 s) l = l := by
  intro ps
  induction ps with
  | nil => intro l h hp; rfl
  | cons p rest ih =>
    intro l h hp
    simp only [List.foldl_cons]
    rw [replaceAll_head_not_mem (hp p (List.mem_cons_self p rest)) h]
    exact ih l h (fun q hq => hp q (List.mem_cons_of_mem p hq))

theorem decodeEntities_no_amp {l : List Char} (h : '&' ∉ l) :
    HTMLOptimizer.decodeEntities l = l := by
  unfold HTMLOptimizer.decodeEntities
  exact foldl_replaceAll_head_amp _ l h (by decide)

theorem amp_not_mem_slackPreDecode {l0 : List Char} (h : '&' ∉ l0) :
    '&' ∉ HTMLOptimizer.slackPreDecode l0 := by
  unfold HTMLOptimizer.slackPreDecode
  intro hm
  have h12 := removeTags_subset _ _ _ hm
  rcases wordTagsToNl_subset _ _ _ '&' h12 with h11 | hno
  swap
  · exact absurd hno (by decide)
  rcases brToNl_subset _ _ '&' h11 with h10 | hno
  swap
  · exact absurd hno (by decide)
  rcases wordTagsToNl_subset _ _ _ '&' h10 with h9 | hno
  swap
  · exact absurd hno (by decide)
  rcases linkSlack_subset _ _ '&' h9 with h8 | hno
  swap
  · exact absurd hno (by decide)
  rcases preCodeSlack_subset _ _ '&' h8 with h7 | hno
  swap
  · exact absurd hno (by decide)
  rcases replaceTagPair_subset _ _ _ _ _ _ '&' h7 with h6 | hno
  swap
  · rcases hno with hno | hno <;> exact absurd hno (by decide)
  rcases replaceTagPair_subset _ _ _ _ _ _ '&' h6 with h5 | hno
  swap
  · rcases hno with hno | hno <;> exact absurd hno (by decide)
  rcases replaceTagPair_subset _ _ _ _ _ _ '&' h5 with h4 | hno
  swap
  · rcases hno with hno | hno <;> exact absurd hno (by decide)
  rcases replaceTagPair_subset _ _ _ _ _ _ '&' h4 with h3 | hno
  swap
  · rcases hno with hno | hno <;> exact absurd hno (by decide)
  rcases replaceTagPair_subset _ _ _ _ _ _ '&' h3 with h2 | hno
  swap
  · rcases hno with hno | hno <;> exact absurd hno (by decide)
  rcases replaceTagPair_subset _ _ _ _ _ _ '&' h2 with h1 | hno
  swap
  · rcases hno with hno | hno <;> exact absurd hno (by decide)
  rcases replaceTagPair_subset _ _ _ _ _ _ '&' h1 with h0 | hno
  swap
  · rcases hno with hno | hno <;> exact absurd hno (by decide)
  exact h h0

theorem hasTag_slackPreDecode (l0 : List Char) :
    HTMLOptimizer.hasTag (HTMLOptimizer.slackPreDecode l0) = false := by
  unfold HTMLOptimizer.slackPreDecode
  exact hasTag_removeTags _ _ (Nat.lt_succ_self _)

/-- C7 amended: (a) a Google-Docs-profile rewrite that survives the other
passes: a `font-family` declaration inside a style attribute is rewritten
to `font-family:Arial,sans-serif;` (the original claim's unconditional
wording fails when the declaration sits inside a removed class/id
attribute); (b) for chat-oriented export the Slack profile yields
tag-free text for every input free of `&` — entity-bearing inputs can
decode to tag text because decoding runs after tag stripping, as the
counterexample shows. -/
theorem c7_amended :
    containsSub "font-family:Arial,sans-serif;".data
      (HTMLOptimizer.optimizeForGoogleDocs
        "<span style=\"font-family: Helvetica;\">x</span>").data = true ∧
    ∀ html : String, '&' ∉ html.data →
      HTMLOptimizer.hasTag (HTMLOptimizer.optimizeForSlack html).data = false := by
  constructor
  · set_option maxHeartbeats 2000000 in decide
  · intro html hamp
    have hpre : '&' ∉ HTMLOptimizer.slackPreDecode html.data :=
      amp_not_mem_slackPreDecode hamp
    have hfinal : HTMLOptimizer.optimizeForSlack html =
        ⟨jsTrim (HTMLOptimizer.collapseNl
          ((HTMLOptimizer.slackPreDecode html.data).length + 1)
          (HTMLOptimizer.slackPreDecode html.data))⟩ := by
      unfold HTMLOptimizer.optimizeForSlack
      rw [decodeEntities_no_amp hpre]
    rw [hfinal]
    exact DelSafe_hasTag
      (DelSafe_trans (DelSafe_collapseNl _ _) (DelSafe_jsTrim _))
      (hasTag_slackPreDecode _)

theorem c7_amended_witness :
    ('&' ∉ ("<b>hello</b> & more" : String).data → True) ∧
    '&' ∉ ("<b>hello</b>" : String).data ∧
    HTMLOptimizer.hasTag (HTMLOptimizer.optimizeForSlack "<b>hello</b>").data = false :=
  ⟨fun _ => trivial, by decide, c7_amended.2 "<b>hello</b>" (by decide)⟩
